import Mathlib

/-!
# Verification of the rusty-editor camera/picking subsystem

Shallow embedding of `src/camera.rs` (`CameraController`, its picking
algorithm and key handlers) and `src/world/physics/selection.rs`
(physics selection equality), together with proofs about the embedded
definitions.

Embedding conventions:

* `f32` scalars are modelled by the exact rational type `Q` below
  (a numerator/positive-denominator pair compared by cross
  multiplication).  The editor code performs no rounding-sensitive
  arithmetic on the picking path, so exact rationals are the intended
  real-number semantics of the floating point code; `==`, `<`, `min`
  on `f32` become value comparisons on `Q`.
* `metric_distance` (a Euclidean norm, hence a square root) is modelled
  by the squared distance `metricDistanceSq`.  Every use of the
  distances in `pick` (the `da < db` choice, `da.min(db)`, and the final
  sort by `toi`) only compares distances of nonnegative rays, and
  squaring is strictly monotone on nonnegative values, so all
  comparisons and branches agree with the source.
* The scene graph (an external collaborator, a pool of nodes) is
  modelled as a finite tree `SceneTree` whose nodes carry the data the
  picking code reads: the cached global visibility flag, the global
  transform and the node-kind tag.  Handles are (index, generation)
  pairs as in the engine pool.  Indexing the pool with a handle that is
  not in the graph panics; this is modelled by the `panic` outcome.
* Geometry routines of the engine (`make_ray`, ray/AABB intersection,
  ray/plane intersection) are collaborators; they are modelled from the
  specification's description of their interfaces (camera rays are an
  abstract deterministic function of cursor and screen size; slab
  ray/box intersection returning entry/exit points with ray parameter
  in `[0, fMax]`; plane intersection returning `none` for a parallel
  ray or a hit behind the origin).
* `DefaultHasher` is the Rust standard library's SipHash-1-3 with zero
  keys; it is embedded bit-exactly (`sipHash13`) over the byte stream
  that `Hash for Handle` feeds it (index then generation, each as four
  little-endian bytes).
* The `while let Some(handle) = stack.pop()` loop is embedded as the
  fuel-indexed `pickGo`; `pick` supplies fuel `sizeForest stack`, which
  is proved sufficient (`pickGo_fuel_irrelevant`-style lemmas below),
  so the fuel never runs out on tree-shaped graphs, matching the
  terminating behaviour of the source loop.
-/

set_option maxRecDepth 100000

/-- Exact rational scalar modelling `f32`: integer numerator over a
positive natural denominator.  Representations are not normalised; all
comparisons used by the embedded code are value comparisons by cross
multiplication. -/
structure Q where
  num : Int
  den : Nat
  den_pos : 0 < den

/-- Value equality (`==` on `f32`). -/
def Q.beq (a b : Q) : Bool := decide (a.num * (b.den : Int) = b.num * (a.den : Int))

/-- Value `≤` on scalars. -/
def Q.ble (a b : Q) : Bool := decide (a.num * (b.den : Int) ≤ b.num * (a.den : Int))

/-- Value `<` on scalars. -/
def Q.blt (a b : Q) : Bool := decide (a.num * (b.den : Int) < b.num * (a.den : Int))

/-- Value test against zero (`f32::is_zero` / comparison with `0.0`). -/
def Q.isZero (a : Q) : Bool := decide (a.num = 0)

def Q.zero : Q := ⟨0, 1, Nat.one_pos⟩

def Q.one : Q := ⟨1, 1, Nat.one_pos⟩

def Q.half : Q := ⟨1, 2, by omega⟩

def Q.ofInt (n : Int) : Q := ⟨n, 1, Nat.one_pos⟩

def Q.add (a b : Q) : Q :=
  ⟨a.num * (b.den : Int) + b.num * (a.den : Int), a.den * b.den,
    Nat.mul_pos a.den_pos b.den_pos⟩

def Q.neg (a : Q) : Q := ⟨-a.num, a.den, a.den_pos⟩

def Q.mul (a b : Q) : Q :=
  ⟨a.num * b.num, a.den * b.den, Nat.mul_pos a.den_pos b.den_pos⟩

instance : Add Q := ⟨Q.add⟩

instance : Neg Q := ⟨Q.neg⟩

instance : Mul Q := ⟨Q.mul⟩

def Q.sub (a b : Q) : Q := a + (-b)

instance : Sub Q := ⟨Q.sub⟩

/-- Exact division.  The embedded code only divides by values it has
checked to be nonzero (slab axes, determinants, homogeneous `w`), so
the zero branch is unreachable there; it returns `0` to stay total. -/
def Q.div (a b : Q) : Q :=
  if h : 0 < b.num then
    ⟨a.num * (b.den : Int), a.den * b.num.toNat, Nat.mul_pos a.den_pos (by omega)⟩
  else if h2 : b.num < 0 then
    ⟨-(a.num * (b.den : Int)), a.den * (-b.num).toNat, Nat.mul_pos a.den_pos (by omega)⟩
  else Q.zero

instance : Div Q := ⟨Q.div⟩

/-- `f32::min`. -/
def Q.min (a b : Q) : Q := if Q.ble a b then a else b

/-- `f32::max`. -/
def Q.max (a b : Q) : Q := if Q.ble a b then b else a

/-- Stand-in for `f32::MAX` (only its role as an upper bound for ray
parameters matters to the embedded code). -/
def fMax : Q := ⟨(2:Int)^128, 1, Nat.one_pos⟩

/-- 2D vector over the scalar model (`Vector2<f32>`). -/
structure Vec2 where
  x : Q
  y : Q

/-- Componentwise value equality: `Vector2<f32>::eq`. -/
def Vec2.beq (a b : Vec2) : Bool := Q.beq a.x b.x && Q.beq a.y b.y

/-- 3D vector over the scalar model (`Vector3<f32>`). -/
structure Vec3 where
  x : Q
  y : Q
  z : Q

def Vec3.add (a b : Vec3) : Vec3 := ⟨a.x + b.x, a.y + b.y, a.z + b.z⟩

def Vec3.sub (a b : Vec3) : Vec3 := ⟨a.x - b.x, a.y - b.y, a.z - b.z⟩

def Vec3.scale (t : Q) (v : Vec3) : Vec3 := ⟨t * v.x, t * v.y, t * v.z⟩

def Vec3.dot (a b : Vec3) : Q := a.x * b.x + a.y * b.y + a.z * b.z

def Vec3.zero : Vec3 := ⟨Q.zero, Q.zero, Q.zero⟩

/-- Componentwise value test against the zero vector. -/
def Vec3.isZero (v : Vec3) : Bool := Q.isZero v.x && Q.isZero v.y && Q.isZero v.z

/-- Componentwise value equality of 3D vectors. -/
def Vec3.beq (a b : Vec3) : Bool := Q.beq a.x b.x && Q.beq a.y b.y && Q.beq a.z b.z

/-- Squared Euclidean distance.  `nalgebra`'s `metric_distance` is the
square root of this; see the header for why the square is
comparison-faithful for every use in `pick`. -/
def metricDistanceSq (a b : Vec3) : Q :=
  let d := Vec3.sub a b
  d.x * d.x + d.y * d.y + d.z * d.z

/-- Row-major 4×4 matrix (`Matrix4<f32>`). -/
structure Mat4 where
  m00 : Q
  m01 : Q
  m02 : Q
  m03 : Q
  m10 : Q
  m11 : Q
  m12 : Q
  m13 : Q
  m20 : Q
  m21 : Q
  m22 : Q
  m23 : Q
  m30 : Q
  m31 : Q
  m32 : Q
  m33 : Q

/-- `Matrix4::default()`: `nalgebra`'s `Default` for a statically sized
matrix fills every entry with `f32::default() = 0.0`, i.e. it is the
zero matrix (not the identity). -/
def Mat4.zero : Mat4 :=
  ⟨Q.zero, Q.zero, Q.zero, Q.zero, Q.zero, Q.zero, Q.zero, Q.zero,
   Q.zero, Q.zero, Q.zero, Q.zero, Q.zero, Q.zero, Q.zero, Q.zero⟩

def Mat4.identity : Mat4 :=
  ⟨Q.one, Q.zero, Q.zero, Q.zero,
   Q.zero, Q.one, Q.zero, Q.zero,
   Q.zero, Q.zero, Q.one, Q.zero,
   Q.zero, Q.zero, Q.zero, Q.one⟩

/-- Homogeneous translation matrix (test-data builder). -/
def Mat4.translation (x y z : Q) : Mat4 :=
  ⟨Q.one, Q.zero, Q.zero, x,
   Q.zero, Q.one, Q.zero, y,
   Q.zero, Q.zero, Q.one, z,
   Q.zero, Q.zero, Q.zero, Q.one⟩

/-- `Matrix4::transform_vector`: apply the upper-left 3×3 block. -/
def Mat4.transformVector (m : Mat4) (v : Vec3) : Vec3 :=
  ⟨m.m00 * v.x + m.m01 * v.y + m.m02 * v.z,
   m.m10 * v.x + m.m11 * v.y + m.m12 * v.z,
   m.m20 * v.x + m.m21 * v.y + m.m22 * v.z⟩

/-- `Matrix4::transform_point`: homogeneous transform with perspective
division when the resulting `w` is nonzero, and the raw affine part
otherwise. -/
def Mat4.transformPoint (m : Mat4) (v : Vec3) : Vec3 :=
  let tx := m.m00 * v.x + m.m01 * v.y + m.m02 * v.z + m.m03
  let ty := m.m10 * v.x + m.m11 * v.y + m.m12 * v.z + m.m13
  let tz := m.m20 * v.x + m.m21 * v.y + m.m22 * v.z + m.m23
  let w := m.m30 * v.x + m.m31 * v.y + m.m32 * v.z + m.m33
  if Q.isZero w then ⟨tx, ty, tz⟩ else ⟨tx / w, ty / w, tz / w⟩

/-- 3×3 determinant of the matrix with rows `(a b c) (d e f) (g h i)`. -/
def det3 (a b c d e f g h i : Q) : Q :=
  a * (e * i - f * h) - b * (d * i - f * g) + c * (d * h - e * g)

/-- 4×4 determinant by cofactor expansion along the first row. -/
def Mat4.det (m : Mat4) : Q :=
  m.m00 * det3 m.m11 m.m12 m.m13 m.m21 m.m22 m.m23 m.m31 m.m32 m.m33
    - m.m01 * det3 m.m10 m.m12 m.m13 m.m20 m.m22 m.m23 m.m30 m.m32 m.m33
    + m.m02 * det3 m.m10 m.m11 m.m13 m.m20 m.m21 m.m23 m.m30 m.m31 m.m33
    - m.m03 * det3 m.m10 m.m11 m.m12 m.m20 m.m21 m.m22 m.m30 m.m31 m.m32

/-- `Matrix4::try_inverse`: `none` when the determinant is zero,
otherwise the adjugate divided by the determinant (entry `(i,j)` is
`(-1)^(i+j)` times the 3×3 minor obtained by deleting row `j` and
column `i`, divided by the determinant). -/
def Mat4.tryInverse (m : Mat4) : Option Mat4 :=
  let d := m.det
  if Q.isZero d then none
  else some
    ⟨(det3 m.m11 m.m12 m.m13 m.m21 m.m22 m.m23 m.m31 m.m32 m.m33) / d,
     (-(det3 m.m01 m.m02 m.m03 m.m21 m.m22 m.m23 m.m31 m.m32 m.m33)) / d,
     (det3 m.m01 m.m02 m.m03 m.m11 m.m12 m.m13 m.m31 m.m32 m.m33) / d,
     (-(det3 m.m01 m.m02 m.m03 m.m11 m.m12 m.m13 m.m21 m.m22 m.m23)) / d,
     (-(det3 m.m10 m.m12 m.m13 m.m20 m.m22 m.m23 m.m30 m.m32 m.m33)) / d,
     (det3 m.m00 m.m02 m.m03 m.m20 m.m22 m.m23 m.m30 m.m32 m.m33) / d,
     (-(det3 m.m00 m.m02 m.m03 m.m10 m.m12 m.m13 m.m30 m.m32 m.m33)) / d,
     (det3 m.m00 m.m02 m.m03 m.m10 m.m12 m.m13 m.m20 m.m22 m.m23) / d,
     (det3 m.m10 m.m11 m.m13 m.m20 m.m21 m.m23 m.m30 m.m31 m.m33) / d,
     (-(det3 m.m00 m.m01 m.m03 m.m20 m.m21 m.m23 m.m30 m.m31 m.m33)) / d,
     (det3 m.m00 m.m01 m.m03 m.m10 m.m11 m.m13 m.m30 m.m31 m.m33) / d,
     (-(det3 m.m00 m.m01 m.m03 m.m10 m.m11 m.m13 m.m20 m.m21 m.m23)) / d,
     (-(det3 m.m10 m.m11 m.m12 m.m20 m.m21 m.m22 m.m30 m.m31 m.m32)) / d,
     (det3 m.m00 m.m01 m.m02 m.m20 m.m21 m.m22 m.m30 m.m31 m.m32) / d,
     (-(det3 m.m00 m.m01 m.m02 m.m10 m.m11 m.m12 m.m30 m.m31 m.m32)) / d,
     (det3 m.m00 m.m01 m.m02 m.m10 m.m11 m.m12 m.m20 m.m21 m.m22) / d⟩

/-- A ray: origin plus direction (`rg3d::core::math::ray::Ray`). -/
structure Ray where
  origin : Vec3
  dir : Vec3

/-- `Ray::transform(mat)`: transform the origin as a point and the
direction as a vector. -/
def Ray.transform (r : Ray) (m : Mat4) : Ray :=
  ⟨m.transformPoint r.origin, m.transformVector r.dir⟩

/-- Value equality of rays (origin and direction componentwise). -/
def Ray.beq (a b : Ray) : Bool := Vec3.beq a.origin b.origin && Vec3.beq a.dir b.dir

/-- Axis-aligned bounding box. -/
structure AABB where
  min : Vec3
  max : Vec3

/-- `AxisAlignedBoundingBox::default()`: the inverted "invalid" box
(`min = +MAX`, `max = -MAX`).  Per the specification it is a degenerate
empty box that never intersects a ray. -/
def AABB.default : AABB :=
  ⟨⟨fMax, fMax, fMax⟩, ⟨-fMax, -fMax, -fMax⟩⟩

/-- `AxisAlignedBoundingBox::unit()`: unit-size box centred at the
origin. -/
def AABB.unit : AABB :=
  ⟨⟨-Q.half, -Q.half, -Q.half⟩, ⟨Q.half, Q.half, Q.half⟩⟩

/-- One axis of the slab ray/box intersection: given the origin and
direction components, the slab bounds and the current parameter
interval, returns the narrowed interval or `none`.  A zero direction
component requires the origin to lie inside the slab; otherwise the two
plane parameters are ordered by the sign of the direction (so an
inverted/empty box yields an empty interval and never hits). -/
def slabAxis (o d mn mx : Q) (acc : Q × Q) : Option (Q × Q) :=
  if Q.isZero d then
    if Q.blt o mn || Q.blt mx o then none else some acc
  else
    let t1 := (mn - o) / d
    let t2 := (mx - o) / d
    let lo := if Q.blt Q.zero d then t1 else t2
    let hi := if Q.blt Q.zero d then t2 else t1
    let tlo := Q.max acc.1 lo
    let thi := Q.min acc.2 hi
    if Q.blt thi tlo then none else some (tlo, thi)

/-- Ray/box parameter interval: slab test over the three axes with the
ray-parameter interval clamped to `[0, fMax]` (a ray, not a line). -/
def rayBoxT (r : Ray) (bb : AABB) : Option (Q × Q) :=
  match slabAxis r.origin.x r.dir.x bb.min.x bb.max.x (Q.zero, fMax) with
  | none => none
  | some acc1 =>
    match slabAxis r.origin.y r.dir.y bb.min.y bb.max.y acc1 with
    | none => none
    | some acc2 => slabAxis r.origin.z r.dir.z bb.min.z bb.max.z acc2

/-- `Ray::aabb_intersection_points`: the entry and exit points of the
ray against the box (collaborator, modelled from the specification's
"two entry/exit points" interface). -/
def aabbIntersectionPoints (r : Ray) (bb : AABB) : Option (Vec3 × Vec3) :=
  match rayBoxT r bb with
  | none => none
  | some (tlo, thi) =>
    some (Vec3.add r.origin (Vec3.scale tlo r.dir),
          Vec3.add r.origin (Vec3.scale thi r.dir))

/-- A plane `normal · p + d = 0` (`rg3d::core::math::plane::Plane`). -/
structure Plane where
  normal : Vec3
  d : Q

/-- `Ray::plane_intersection_point`: collaborator, modelled from the
specification: `none` when the ray is parallel to the plane or the
intersection lies behind the ray origin, otherwise the hit point. -/
def planeIntersectionPoint (r : Ray) (p : Plane) : Option Vec3 :=
  let denom := Vec3.dot p.normal r.dir
  if Q.isZero denom then none
  else
    let t := (-(Vec3.dot p.normal r.origin + p.d)) / denom
    if Q.blt t Q.zero then none
    else some (Vec3.add r.origin (Vec3.scale t r.dir))

/-- Pool handle: index and generation, as in `rg3d::core::pool::Handle`.
Handles are compared and hashed by these two `u32` fields. -/
structure Handle where
  index : Nat
  generation : Nat
deriving DecidableEq

/-- Truncation to 64 bits. -/
def wrap64 (n : Nat) : Nat := n % 18446744073709551616

/-- 64-bit rotate left (arguments below `2^64`, `0 < r < 64`). -/
def rotl64 (x r : Nat) : Nat := wrap64 (x <<< r) ||| (x >>> (64 - r))

/-- One SipHash round. -/
def sipRound : Nat × Nat × Nat × Nat → Nat × Nat × Nat × Nat :=
  fun (v0, v1, v2, v3) =>
    let v0 := wrap64 (v0 + v1)
    let v1 := rotl64 v1 13
    let v1 := v1 ^^^ v0
    let v0 := rotl64 v0 32
    let v2 := wrap64 (v2 + v3)
    let v3 := rotl64 v3 16
    let v3 := v3 ^^^ v2
    let v0 := wrap64 (v0 + v3)
    let v3 := rotl64 v3 21
    let v3 := v3 ^^^ v0
    let v2 := wrap64 (v2 + v1)
    let v1 := rotl64 v1 17
    let v1 := v1 ^^^ v2
    let v2 := rotl64 v2 32
    (v0, v1, v2, v3)

/-- SipHash-1-3 message-block compression: xor into `v3`, one round,
xor into `v0`. -/
def sipCompress (st : Nat × Nat × Nat × Nat) (m : Nat) : Nat × Nat × Nat × Nat :=
  let st1 := sipRound (st.1, st.2.1, st.2.2.1, st.2.2.2 ^^^ m)
  (st1.1 ^^^ m, st1.2.1, st1.2.2.1, st1.2.2.2)

/-- Little-endian word value of a byte list (first byte least
significant). -/
def leWord (bs : List Nat) : Nat := bs.foldr (fun b acc => b + 256 * acc) 0

/-- Consume full 8-byte blocks of the stream, returning the state and
the remaining (fewer than eight) bytes. -/
def sipProcess (st : Nat × Nat × Nat × Nat) :
    List Nat → (Nat × Nat × Nat × Nat) × List Nat
  | b0 :: b1 :: b2 :: b3 :: b4 :: b5 :: b6 :: b7 :: rest =>
    sipProcess (sipCompress st (leWord [b0, b1, b2, b3, b4, b5, b6, b7])) rest
  | rest => (st, rest)

/-- SipHash-1-3 with zero keys over a byte stream: the algorithm behind
`std::collections::hash_map::DefaultHasher` (initial state constants
xored with the zero key, one compression round per block, final block
carrying the length in the top byte, `v2 ^= 0xff` and three
finalisation rounds). -/
def sipHash13 (bytes : List Nat) : Nat :=
  let st0 : Nat × Nat × Nat × Nat :=
    (0x736f6d6570736575, 0x646f72616e646f6d, 0x6c7967656e657261, 0x7465646279746573)
  let pr := sipProcess st0 bytes
  let b := ((bytes.length % 256) <<< 56) ||| leWord pr.2
  let st1 := sipCompress pr.1 b
  let st2 := sipRound (sipRound (sipRound (st1.1, st1.2.1, st1.2.2.1 ^^^ 0xff, st1.2.2.2)))
  st2.1 ^^^ st2.2.1 ^^^ st2.2.2.1 ^^^ st2.2.2.2

/-- The four little-endian bytes of a `u32` (as written by the default
`Hasher::write_u32` on a little-endian target). -/
def u32le (n : Nat) : List Nat :=
  [n % 256, n / 256 % 256, n / 65536 % 256, n / 16777216 % 256]

/-- The byte stream `Hash for Handle` feeds the hasher: the index then
the generation, each as a `u32`. -/
def handleBytes (h : Handle) : List Nat := u32le h.index ++ u32le h.generation

/-- The selection hash computed at the end of `pick`: every node
identity of the (toi-sorted) pick list fed in sequence into one
`DefaultHasher`.  Streaming the bytes is equivalent to hashing their
concatenation, which is how it is written here. -/
def selectionHash (hs : List Handle) : Nat :=
  sipHash13 (hs.map handleBytes).flatten

/-- Node type tag together with the data the picking code reads from
the concrete variant: a mesh's bounding box, or a camera's ray builder
(`Camera::make_ray` as a black-box deterministic function of cursor
position and screen size). -/
inductive NodeKind where
  | mesh (bbox : AABB)
  | base
  | camera (makeRay : Vec2 → Vec2 → Ray)
  | other

/-- Per-node data read by the camera controller: the cached global
visibility flag, the global transform, and the variant tag. -/
structure NodeData where
  visible : Bool
  transform : Mat4
  kind : NodeKind

/-- The scene graph as a finite tree (the pool's parent/child structure
restricted to what `pick` traverses).  The root of the tree is
`Graph::get_root()`.  Handles are assumed unique in a well-formed
graph. -/
inductive SceneTree where
  | mk (handle : Handle) (data : NodeData) (children : List SceneTree)

def SceneTree.handle : SceneTree → Handle
  | .mk h _ _ => h

def SceneTree.data : SceneTree → NodeData
  | .mk _ d _ => d

def SceneTree.children : SceneTree → List SceneTree
  | .mk _ _ cs => cs

mutual

def sizeTree : SceneTree → Nat
  | .mk _ _ cs => 1 + sizeForest cs

def sizeForest : List SceneTree → Nat
  | [] => 0
  | t :: ts => sizeTree t + sizeForest ts

end

mutual

/-- First subtree (in preorder) whose root carries the handle: the
model of pool lookup `graph[handle]` restricted to the graph tree. -/
def findSubtree : SceneTree → Handle → Option SceneTree
  | .mk hh d cs, h =>
    if hh = h then some (.mk hh d cs) else findSubtreeF cs h

def findSubtreeF : List SceneTree → Handle → Option SceneTree
  | [], _ => none
  | t :: ts, h =>
    match findSubtree t h with
    | some s => some s
    | none => findSubtreeF ts h

end

/-- `&graph[handle]` as the node data of the subtree with that handle
(`none` models a dangling handle, on which the pool panics). -/
def findNode (g : SceneTree) (h : Handle) : Option NodeData :=
  (findSubtree g h).map SceneTree.data

mutual

/-- Every subtree of a tree (the tree itself included). -/
def allSubtrees : SceneTree → List SceneTree
  | .mk h d cs => .mk h d cs :: allSubtreesF cs

def allSubtreesF : List SceneTree → List SceneTree
  | [] => []
  | t :: ts => allSubtrees t ++ allSubtreesF ts

end

/-- One entry of the pick result list (`CameraPickResult`).  `toi`
stores the squared object-space distance (see the header). -/
structure CameraPickResult where
  position : Vec3
  node : Handle
  toi : Q

/-- Cycling state per traversal mode (`PickContext`). -/
structure PickContext where
  pick_list : List CameraPickResult
  pick_index : Nat
  old_selection_hash : Nat
  old_cursor_pos : Vec2

/-- `PickContext::default()`: empty list, index 0, hash 0, cursor
`(0, 0)`. -/
def PickContext.default : PickContext :=
  ⟨[], 0, 0, ⟨Q.zero, Q.zero⟩⟩

/-- `CameraController` state.  The `stack` scratch buffer of the source
is cleared on entry to `pick` and fully drained by its loop, so it is
always empty outside `pick` and carries no observable state; it is
omitted here. -/
structure CameraController where
  pivot : Handle
  camera : Handle
  yaw : Q
  pitch : Q
  rotate : Bool
  drag_side : Q
  drag_up : Q
  drag : Bool
  move_left : Bool
  move_right : Bool
  move_forward : Bool
  move_backward : Bool
  move_up : Bool
  move_down : Bool
  speed_factor : Q
  editor_context : PickContext
  scene_context : PickContext

/-- Outcome of a `pick` call: either a panic (pool indexing with a
dangling handle) or the returned option together with the updated
controller. -/
inductive PickOutcome where
  | panic
  | ok (result : Option CameraPickResult) (ctrl : CameraController)

/-- Outcome of a `pick_on_plane` call: a panic (dangling camera handle,
or the `unreachable!()` arm for a non-camera node) or the returned
option. -/
inductive PlaneOutcome where
  | panic
  | ok (point : Option Vec3)

def PickOutcome.resultOf : PickOutcome → Option CameraPickResult
  | .panic => none
  | .ok r _ => r

def PickOutcome.isPanic : PickOutcome → Bool
  | .panic => true
  | .ok _ _ => false

def PlaneOutcome.isPanic : PlaneOutcome → Bool
  | .panic => true
  | .ok _ => false

/-- The context selected by `editor_only` (editor context when true,
scene context when false). -/
def ctxOf (c : CameraController) (editor_only : Bool) : PickContext :=
  if editor_only then c.editor_context else c.scene_context

/-- Store back the context selected by `editor_only`. -/
def setCtx (c : CameraController) (editor_only : Bool) (ctx : PickContext) :
    CameraController :=
  if editor_only then { c with editor_context := ctx } else { c with scene_context := ctx }

/-- The context selected by `editor_only` after a pick outcome (the
pre-call context if the call panicked). -/
def ctxAfter (editor_only : Bool) (c : CameraController) : PickOutcome → PickContext
  | .panic => ctxOf c editor_only
  | .ok _ c2 => ctxOf c2 editor_only

/-- The per-call traversal environment of `pick`: the graph root
handle, the `root` argument, the `editor_only` flag, the filter
predicate and the camera ray. -/
structure PickEnv where
  groot : Handle
  root : Handle
  editor_only : Bool
  filter : Handle → NodeData → Bool
  ray : Ray

/-- The `continue` right after popping: in a full-scene pick the
designated editor root is skipped before its children are pushed. -/
def pruned (env : PickEnv) (t : SceneTree) : Bool :=
  !env.editor_only && decide (t.handle = env.root)

/-- The visibility/filter gate: `node.global_visibility() &&
filter(handle, node)`. -/
def tested (env : PickEnv) (t : SceneTree) : Bool :=
  t.data.visible && env.filter t.handle t.data

/-- Bounding-volume selection: a mesh uses its bounding box; a base
node that is the graph root or the traversal root uses the default
(degenerate) box; every other node uses the unit box. -/
def nodeAabb (env : PickEnv) (t : SceneTree) : AABB :=
  match t.data.kind with
  | .mesh bbox => bbox
  | .base =>
    if t.handle = env.groot ∨ t.handle = env.root then AABB.default else AABB.unit
  | _ => AABB.unit

/-- The object-space ray:
`ray.transform(node.global_transform().try_inverse().unwrap_or_default())`.
`unwrap_or_default()` falls back to `Matrix4::default()`, the zero
matrix. -/
def objectSpaceRay (ray : Ray) (d : NodeData) : Ray :=
  ray.transform ((Mat4.tryInverse d.transform).getD Mat4.zero)

/-- The per-node intersection test and result construction of the loop
body: nothing for the graph root; otherwise the coarse AABB test in
object space, recording the world-space position of the nearer
intersection point and its (squared) distance as `toi`.  (The
fine-grained surface test of the source is an empty `TODO` block.) -/
def emitOpt (env : PickEnv) (t : SceneTree) : Option CameraPickResult :=
  if t.handle = env.groot then none
  else
    let osr := objectSpaceRay env.ray t.data
    match aabbIntersectionPoints osr (nodeAabb env t) with
    | none => none
    | some pts =>
      let da := metricDistanceSq pts.1 osr.origin
      let db := metricDistanceSq pts.2 osr.origin
      some
        { position :=
            t.data.transform.transformPoint (if Q.blt da db then pts.1 else pts.2)
          node := t.handle
          toi := Q.min da db }

/-- The `while let Some(handle) = stack.pop()` loop, fuel-indexed.
Popping a node first applies the editor-root skip (before children are
pushed), then pushes the children (`extend_from_slice` followed by
popping from the back visits them in reverse order), then applies the
visibility/filter gate, then runs the intersection test.  `pick`
supplies fuel `sizeForest stack`, which is sufficient. -/
def pickGo (env : PickEnv) :
    Nat → List SceneTree → List CameraPickResult → List CameraPickResult
  | 0, _, acc => acc
  | _ + 1, [], acc => acc
  | fuel + 1, t :: rest, acc =>
    if pruned env t then pickGo env fuel rest acc
    else
      let stack := t.children.reverse ++ rest
      if tested env t then
        match emitOpt env t with
        | some r => pickGo env fuel stack (acc ++ [r])
        | none => pickGo env fuel stack acc
      else pickGo env fuel stack acc

/-- Sort order of the result list: ascending `toi`
(`sort_by(|a, b| a.toi.partial_cmp(&b.toi).unwrap())`; never `NaN` in
the exact model, so the comparator is total). -/
def toiLe (a b : CameraPickResult) : Prop := Q.ble a.toi b.toi = true

instance : DecidableRel toiLe := fun a b =>
  inferInstanceAs (Decidable (Q.ble a.toi b.toi = true))

/-- Traversal followed by the stable sort.  `Vec::sort_by` is a stable
sort; a stable sort's output is uniquely determined by the input order
and the comparator, so insertion sort computes the same list. -/
def computePickList (env : PickEnv) (stack0 : List SceneTree) : List CameraPickResult :=
  List.insertionSort toiLe (pickGo env (sizeForest stack0) stack0 [])

/-- The cycling logic after traversal: hash the node identities of the
sorted list in order; if both the hash and the cursor position equal
the stored ones, advance the index and wrap past the end, otherwise
reset it to 0; store the new hash and cursor; return the entry at the
index (or `None` for an empty list) together with the updated
context. -/
def nextPickIndex (len : Nat) (ctx : PickContext) (selection_hash : Nat)
    (cursor_pos : Vec2) : Nat :=
  if selection_hash = ctx.old_selection_hash ∧ Vec2.beq cursor_pos ctx.old_cursor_pos = true then
    if ctx.pick_index + 1 ≥ len then 0 else ctx.pick_index + 1
  else 0

def cyclePick (L : List CameraPickResult) (cursor_pos : Vec2) (ctx : PickContext) :
    Option CameraPickResult × PickContext :=
  let selection_hash := selectionHash (L.map CameraPickResult.node)
  let idx := nextPickIndex L.length ctx selection_hash cursor_pos
  (if L.isEmpty then none else L[idx]?, ⟨L, idx, selection_hash, cursor_pos⟩)

/-- The initial traversal stack: the editor root's subtree in
editor-only mode (a dangling editor root would panic at its pop), the
whole graph otherwise. -/
def startStack (graph : SceneTree) (root : Handle) (editor_only : Bool) :
    Option (List SceneTree) :=
  if editor_only then (findSubtree graph root).map (fun t => [t]) else some [graph]

/-- `CameraController::pick`.  If the camera handle does not resolve to
a node, pool indexing panics; if it resolves to a non-camera node, the
`if let Node::Camera` body is skipped and the function falls through to
`None` with no state change. -/
def pick (c : CameraController) (cursor_pos : Vec2) (graph : SceneTree) (root : Handle)
    (screen_size : Vec2) (editor_only : Bool) (filter : Handle → NodeData → Bool) :
    PickOutcome :=
  match findNode graph c.camera with
  | none => PickOutcome.panic
  | some nd =>
    match nd.kind with
    | NodeKind.camera makeRay =>
      match startStack graph root editor_only with
      | none => PickOutcome.panic
      | some stack0 =>
        let env : PickEnv :=
          ⟨graph.handle, root, editor_only, filter, makeRay cursor_pos screen_size⟩
        let L := computePickList env stack0
        let rc := cyclePick L cursor_pos (ctxOf c editor_only)
        PickOutcome.ok rc.1 (setCtx c editor_only rc.2)
    | _ => PickOutcome.ok none c

/-- `CameraController::pick_on_plane`: build the camera ray, transform
it, intersect with the plane.  A non-camera node under the camera
handle hits the `unreachable!()` arm. -/
def pick_on_plane (c : CameraController) (plane : Plane) (graph : SceneTree)
    (mouse_position viewport_size : Vec2) (transform : Mat4) : PlaneOutcome :=
  match findNode graph c.camera with
  | none => PlaneOutcome.panic
  | some nd =>
    match nd.kind with
    | NodeKind.camera makeRay =>
      PlaneOutcome.ok
        (planeIntersectionPoint ((makeRay mouse_position viewport_size).transform transform) plane)
    | _ => PlaneOutcome.panic

/-- Key identities handled by the controller; `other` stands for every
key of the wildcard arm. -/
inductive KeyCode where
  | W
  | S
  | A
  | D
  | Space
  | Q
  | E
  | LControl
  | LShift
  | other
deriving DecidableEq

/-- `CameraController::on_key_up`. -/
def on_key_up (c : CameraController) (key : KeyCode) : CameraController :=
  match key with
  | .W => { c with move_forward := false }
  | .S => { c with move_backward := false }
  | .A => { c with move_left := false }
  | .D => { c with move_right := false }
  | .Space => { c with move_up := false }
  | .Q => { c with move_up := false }
  | .E => { c with move_down := false }
  | .LControl => { c with speed_factor := Q.one }
  | .LShift => { c with speed_factor := Q.one }
  | .other => c

/-- `CameraController::on_key_down`. -/
def on_key_down (c : CameraController) (key : KeyCode) : CameraController :=
  match key with
  | .W => { c with move_forward := true }
  | .S => { c with move_backward := true }
  | .A => { c with move_left := true }
  | .D => { c with move_right := true }
  | .Space => { c with move_up := true }
  | .Q => { c with move_up := true }
  | .E => { c with move_down := true }
  | .LControl => { c with speed_factor := Q.ofInt 2 }
  | .LShift => { c with speed_factor := ⟨1, 4, by omega⟩ }
  | .other => c

/-- A key event. -/
inductive KeyEvent where
  | down (key : KeyCode)
  | up (key : KeyCode)
deriving DecidableEq

def KeyEvent.key : KeyEvent → KeyCode
  | .down k => k
  | .up k => k

def applyEvent (c : CameraController) : KeyEvent → CameraController
  | .down k => on_key_down c k
  | .up k => on_key_up c k

/-- Run a sequence of key events through the controller's handlers. -/
def applyEvents (c : CameraController) (evs : List KeyEvent) : CameraController :=
  evs.foldl applyEvent c

/-- Physical key state after a sequence of events (all keys initially
released). -/
def heldStep (held : KeyCode → Bool) : KeyEvent → KeyCode → Bool
  | .down k => fun k2 => if k2 = k then true else held k2
  | .up k => fun k2 => if k2 = k then false else held k2

def heldAfter (evs : List KeyEvent) : KeyCode → Bool :=
  evs.foldl heldStep (fun _ => false)

/-- The six movement directions. -/
inductive Dir where
  | forward
  | backward
  | left
  | right
  | up
  | down
deriving DecidableEq

/-- The keys bound to each direction in the two key handlers. -/
def dirKeys : Dir → List KeyCode
  | .forward => [.W]
  | .backward => [.S]
  | .left => [.A]
  | .right => [.D]
  | .up => [.Space, .Q]
  | .down => [.E]

/-- The movement flag of a direction. -/
def dirFlag (c : CameraController) : Dir → Bool
  | .forward => c.move_forward
  | .backward => c.move_backward
  | .left => c.move_left
  | .right => c.move_right
  | .up => c.move_up
  | .down => c.move_down

/-- A direction counts as "key currently held down" when at least one
of its keys is held. -/
def dirHeld (evs : List KeyEvent) (d : Dir) : Bool :=
  (dirKeys d).any (heldAfter evs)

/-- Modelled from the spec: `utils::is_slice_equal_permutation` (the
file `utils.rs` is not part of the sources; only its callers in
`world/physics/selection.rs` are).  Per its name and the selection
equality it implements, it decides whether one handle list is a
permutation of the other. -/
def is_slice_equal_permutation (a b : List Handle) : Bool :=
  a.isPerm b

/-- `RigidBodySelection`: a list of rigid-body handles. -/
structure RigidBodySelection where
  bodies : List Handle

/-- `PartialEq for RigidBodySelection`. -/
def RigidBodySelection.eq (a b : RigidBodySelection) : Bool :=
  is_slice_equal_permutation a.bodies b.bodies

/-- `JointSelection`: a list of joint handles. -/
structure JointSelection where
  joints : List Handle

/-- `PartialEq for JointSelection`. -/
def JointSelection.eq (a b : JointSelection) : Bool :=
  is_slice_equal_permutation a.joints b.joints

/-- Reachability of a node by the traversal from a stack entry: a
node reaches itself, and an unpruned node reaches whatever one of its
children reaches.  (Only the editor-root skip prunes a subtree; the
visibility/filter gate does not constrain the path.) -/
inductive Reaches (env : PickEnv) : SceneTree → SceneTree → Prop
  | refl (t : SceneTree) : Reaches env t t
  | step {t c s : SceneTree} :
      pruned env t = false → c ∈ t.children → Reaches env c s → Reaches env t s

/-- A node the loop body turns into a result entry: it is popped (not
the pruned editor root), passes the visibility/filter gate, and its
intersection test produces `r`. -/
def emits (env : PickEnv) (s : SceneTree) (r : CameraPickResult) : Prop :=
  pruned env s = false ∧ tested env s = true ∧ emitOpt env s = some r

/-- Controller state after iterating `pick` with fixed arguments.  The
`panic` arm never fires under the valid-camera hypotheses of the
theorems below. -/
def pickN (c : CameraController) (cursor_pos : Vec2) (graph : SceneTree) (root : Handle)
    (screen_size : Vec2) (editor_only : Bool) (filter : Handle → NodeData → Bool) :
    Nat → CameraController
  | 0 => c
  | k + 1 =>
    match pick (pickN c cursor_pos graph root screen_size editor_only filter k)
        cursor_pos graph root screen_size editor_only filter with
    | .ok _ c2 => c2
    | .panic => pickN c cursor_pos graph root screen_size editor_only filter k

/-- The value returned by the `(k+1)`-th of a series of identical
`pick` calls (`k = 0` is the first call). -/
def resOfCall (c : CameraController) (cursor_pos : Vec2) (graph : SceneTree) (root : Handle)
    (screen_size : Vec2) (editor_only : Bool) (filter : Handle → NodeData → Bool)
    (k : Nat) : Option CameraPickResult :=
  (pick (pickN c cursor_pos graph root screen_size editor_only filter k)
      cursor_pos graph root screen_size editor_only filter).resultOf

instance : IsTrans CameraPickResult toiLe := by
  constructor
  intro a b c hab hbc
  simp only [toiLe, Q.ble, decide_eq_true_eq] at hab hbc ⊢
  have hy : (0:Int) < (b.toi.den : Int) := Int.natCast_pos.mpr b.toi.den_pos
  have hx : (0:Int) ≤ (a.toi.den : Int) := Int.natCast_nonneg _
  have hz : (0:Int) ≤ (c.toi.den : Int) := Int.natCast_nonneg _
  have A := mul_le_mul_of_nonneg_right hab hz
  have B := mul_le_mul_of_nonneg_right hbc hx
  have C : a.toi.num * (c.toi.den : Int) * (b.toi.den : Int) ≤
      c.toi.num * (a.toi.den : Int) * (b.toi.den : Int) := by
    ring_nf at A B ⊢
    linarith
  exact le_of_mul_le_mul_right C hy

instance : IsTotal CameraPickResult toiLe := by
  constructor
  intro a b
  simp only [toiLe, Q.ble, decide_eq_true_eq]
  rcases Int.le_total (a.toi.num * (b.toi.den : Int)) (b.toi.num * (a.toi.den : Int)) with h | h
  · exact Or.inl h
  · exact Or.inr h

/-! ## Concrete test data for witnesses and counterexamples -/

def qint (n : Int) : Q := Q.ofInt n

def camH : Handle := ⟨2, 1⟩

def rootH : Handle := ⟨0, 1⟩

def edH : Handle := ⟨1, 1⟩

def m1H : Handle := ⟨10, 1⟩

def m2H : Handle := ⟨11, 1⟩

def farH : Handle := ⟨99, 0⟩

/-- A camera ray builder: constant ray from `(0,0,10)` along `-z`. -/
def camRayFn : Vec2 → Vec2 → Ray :=
  fun _ _ => ⟨⟨Q.zero, Q.zero, qint 10⟩, ⟨Q.zero, Q.zero, qint (-1)⟩⟩

/-- Editor-camera node data: invisible, placed far from the test ray. -/
def camData : NodeData :=
  ⟨false, Mat4.translation (qint 100) (qint 100) (qint 100), .camera camRayFn⟩

def camNode : SceneTree := .mk camH camData []

/-- A visible unit-box mesh node translated to `(0, 0, z)`. -/
def meshAt (h : Handle) (z : Int) : SceneTree :=
  .mk h ⟨true, Mat4.translation (qint 0) (qint 0) (qint z), .mesh AABB.unit⟩ []

/-- An invisible editor-root subtree holding the camera and two meshes
on the ray at `z = -5` and `z = -2`. -/
def edTree : SceneTree :=
  .mk edH ⟨false, Mat4.identity, .base⟩ [camNode, meshAt m1H (-5), meshAt m2H (-2)]

/-- Test graph: a visible base root above `edTree`. -/
def G1 : SceneTree :=
  .mk rootH ⟨true, Mat4.identity, .base⟩ [edTree]

/-- Like `G1` with the two mesh distances swapped, so the same two
nodes sort in the opposite order. -/
def G2 : SceneTree :=
  .mk rootH ⟨true, Mat4.identity, .base⟩
    [.mk edH ⟨false, Mat4.identity, .base⟩ [camNode, meshAt m1H (-2), meshAt m2H (-5)]]

/-- A fresh controller with both contexts in their default state. -/
def ctrl0 : CameraController :=
  ⟨⟨3, 1⟩, camH, Q.zero, Q.zero, false, Q.zero, Q.zero, false,
   false, false, false, false, false, false, Q.one,
   PickContext.default, PickContext.default⟩

/-- A controller whose camera handle points at the editor root (a base
node, not a camera). -/
def ctrlBad : CameraController :=
  { ctrl0 with camera := edH }

def cursor1 : Vec2 := ⟨qint 1, qint 2⟩

def screen1 : Vec2 := ⟨qint 800, qint 600⟩

def trueFilter : Handle → NodeData → Bool := fun _ _ => true

def planeXY : Plane := ⟨⟨Q.zero, Q.zero, Q.one⟩, Q.zero⟩

/-- A rank-deficient (non-invertible) global transform. -/
def singularM : Mat4 :=
  ⟨Q.one, Q.zero, Q.zero, Q.zero,
   Q.zero, Q.one, Q.zero, Q.zero,
   Q.zero, Q.zero, Q.zero, Q.zero,
   Q.zero, Q.zero, Q.zero, Q.one⟩

/-- Node data with the singular transform. -/
def singularData : NodeData := ⟨true, singularM, .other⟩

/-- A test ray with nonzero origin and direction. -/
def ray0 : Ray := ⟨⟨qint 1, qint 2, qint 3⟩, ⟨qint 4, qint 5, qint 6⟩⟩

/-- The last event of a sequence whose key belongs to the given set
(`none` when there is none): the event that decides the final state of
a flag driven by exactly those keys. -/
def lastMatching (keys : List KeyCode) : List KeyEvent → Option KeyEvent
  | [] => none
  | e :: evs =>
    match lastMatching keys evs with
    | some x => some x
    | none => if e.key ∈ keys then some e else none

/-- Key events mixing the two `up`-direction keys. -/
def evsMix : List KeyEvent := [.down .Space, .down .Q, .up .Space]

/-- Key events using at most one key per direction. -/
def evsOne : List KeyEvent := [.down .W, .down .Space, .up .W, .down .E]

/-! ## Lemmas about the traversal -/

theorem sizeTree_pos (t : SceneTree) : 0 < sizeTree t := by
  cases t with
  | mk h d cs =>
    rw [sizeTree]
    omega

theorem sizeForest_nil : sizeForest [] = 0 := rfl

theorem sizeForest_cons (t : SceneTree) (ts : List SceneTree) :
    sizeForest (t :: ts) = sizeTree t + sizeForest ts := rfl

theorem sizeForest_append (a b : List SceneTree) :
    sizeForest (a ++ b) = sizeForest a + sizeForest b := by
  induction a with
  | nil => rw [List.nil_append, sizeForest_nil]; omega
  | cons t ts ih => rw [List.cons_append, sizeForest_cons, sizeForest_cons, ih]; omega

theorem sizeForest_reverse (l : List SceneTree) :
    sizeForest l.reverse = sizeForest l := by
  induction l with
  | nil => rfl
  | cons t ts ih =>
    rw [List.reverse_cons, sizeForest_append, ih, sizeForest_cons, sizeForest_cons,
      sizeForest_nil]
    omega

theorem sizeTree_le_of_mem {c : SceneTree} {cs : List SceneTree} (h : c ∈ cs) :
    sizeTree c ≤ sizeForest cs := by
  induction cs with
  | nil => cases h
  | cons t ts ih =>
    rcases List.mem_cons.mp h with rfl | h2
    · rw [sizeForest_cons]; omega
    · have := ih h2; rw [sizeForest_cons]; omega

theorem not_reaches_emits_of_pruned {env : PickEnv} {t : SceneTree} (r : CameraPickResult)
    (hp : pruned env t = true) :
    ¬ ∃ s, Reaches env t s ∧ emits env s r := by
  rintro ⟨s, hr, hem⟩
  cases hr with
  | refl => rw [hem.1] at hp; cases hp
  | step hpf _ _ => rw [hpf] at hp; cases hp

theorem reaches_emits_iff {env : PickEnv} (t : SceneTree) (r : CameraPickResult)
    (hp : pruned env t = false) :
    (∃ s, Reaches env t s ∧ emits env s r) ↔
      (emits env t r ∨ ∃ c ∈ t.children, ∃ s, Reaches env c s ∧ emits env s r) := by
  constructor
  · rintro ⟨s, hr, hem⟩
    cases hr with
    | refl => exact Or.inl hem
    | step hpf hc hr2 => exact Or.inr ⟨_, hc, s, hr2, hem⟩
  · rintro (hem | ⟨c, hc, s, hr, hem⟩)
    · exact ⟨t, .refl t, hem⟩
    · exact ⟨s, .step hp hc hr, hem⟩

theorem emits_elim_not_tested {env : PickEnv} {t : SceneTree} (r : CameraPickResult)
    (ht : tested env t = false) : ¬ emits env t r := by
  rintro ⟨_, h2, _⟩
  rw [ht] at h2
  cases h2

theorem emits_iff_of_some {env : PickEnv} {t : SceneTree} {r r2 : CameraPickResult}
    (hp : pruned env t = false) (ht : tested env t = true)
    (he : emitOpt env t = some r2) : emits env t r ↔ r = r2 := by
  constructor
  · rintro ⟨_, _, h3⟩
    rw [he] at h3
    exact (Option.some_inj.mp h3).symm
  · rintro rfl
    exact ⟨hp, ht, he⟩

theorem emits_elim_of_none {env : PickEnv} {t : SceneTree} (r : CameraPickResult)
    (he : emitOpt env t = none) : ¬ emits env t r := by
  rintro ⟨_, _, h3⟩
  rw [he] at h3
  cases h3

theorem pickGo_cons_pruned {env : PickEnv} {t : SceneTree} {f : Nat}
    {rest : List SceneTree} {acc : List CameraPickResult} (hp : pruned env t = true) :
    pickGo env (f + 1) (t :: rest) acc = pickGo env f rest acc := by
  simp [pickGo, hp]

theorem pickGo_cons_not_tested {env : PickEnv} {t : SceneTree} {f : Nat}
    {rest : List SceneTree} {acc : List CameraPickResult}
    (hp : pruned env t = false) (ht : tested env t = false) :
    pickGo env (f + 1) (t :: rest) acc =
      pickGo env f (t.children.reverse ++ rest) acc := by
  simp [pickGo, hp, ht]

theorem pickGo_cons_emit_some {env : PickEnv} {t : SceneTree} {f : Nat}
    {rest : List SceneTree} {acc : List CameraPickResult} {r2 : CameraPickResult}
    (hp : pruned env t = false) (ht : tested env t = true)
    (he : emitOpt env t = some r2) :
    pickGo env (f + 1) (t :: rest) acc =
      pickGo env f (t.children.reverse ++ rest) (acc ++ [r2]) := by
  simp [pickGo, hp, ht, he]

theorem pickGo_cons_emit_none {env : PickEnv} {t : SceneTree} {f : Nat}
    {rest : List SceneTree} {acc : List CameraPickResult}
    (hp : pruned env t = false) (ht : tested env t = true)
    (he : emitOpt env t = none) :
    pickGo env (f + 1) (t :: rest) acc =
      pickGo env f (t.children.reverse ++ rest) acc := by
  simp [pickGo, hp, ht, he]

/-- Characterisation of the stack loop's output: a result is in it
exactly when it was already accumulated or some stack entry reaches a
node that emits it.  Holds whenever the fuel covers the total size of
the stacked subtrees. -/
theorem mem_pickGo {env : PickEnv} :
    ∀ (fuel : Nat) (stack : List SceneTree) (acc : List CameraPickResult)
      (r : CameraPickResult), sizeForest stack ≤ fuel →
      (r ∈ pickGo env fuel stack acc ↔
        r ∈ acc ∨ ∃ t ∈ stack, ∃ s, Reaches env t s ∧ emits env s r) := by
  intro fuel
  induction fuel with
  | zero =>
    intro stack acc r hsz
    cases stack with
    | nil => simp [pickGo]
    | cons t rest =>
      exfalso
      have h1 := sizeTree_pos t
      rw [sizeForest_cons] at hsz
      omega
  | succ f ih =>
    intro stack acc r hsz
    cases stack with
    | nil => simp [pickGo]
    | cons t rest =>
      rw [sizeForest_cons] at hsz
      have h1 := sizeTree_pos t
      have hszr : sizeForest rest ≤ f := by omega
      have hszc : sizeForest (t.children.reverse ++ rest) ≤ f := by
        rw [sizeForest_append, sizeForest_reverse]
        cases t with
        | mk h d cs =>
          simp only [SceneTree.children]
          rw [sizeTree] at hsz
          omega
      have hcons : ∀ (P : SceneTree → Prop),
          (∃ x ∈ t :: rest, P x) ↔ P t ∨ ∃ x ∈ rest, P x := by
        intro P
        constructor
        · rintro ⟨x, hx, hPx⟩
          rcases List.mem_cons.mp hx with rfl | hx2
          · exact Or.inl hPx
          · exact Or.inr ⟨x, hx2, hPx⟩
        · rintro (hPt | ⟨x, hx, hPx⟩)
          · exact ⟨t, List.mem_cons_self t rest, hPt⟩
          · exact ⟨x, List.mem_cons_of_mem t hx, hPx⟩
      have hchild : ∀ (P : SceneTree → Prop),
          (∃ x ∈ t.children.reverse ++ rest, P x) ↔
            (∃ c ∈ t.children, P c) ∨ ∃ x ∈ rest, P x := by
        intro P
        constructor
        · rintro ⟨x, hx, hPx⟩
          rcases List.mem_append.mp hx with hx2 | hx2
          · exact Or.inl ⟨x, List.mem_reverse.mp hx2, hPx⟩
          · exact Or.inr ⟨x, hx2, hPx⟩
        · rintro (⟨c, hc, hPc⟩ | ⟨x, hx, hPx⟩)
          · exact ⟨c, List.mem_append.mpr (Or.inl (List.mem_reverse.mpr hc)), hPc⟩
          · exact ⟨x, List.mem_append.mpr (Or.inr hx), hPx⟩
      by_cases hp : pruned env t = true
      · have hnot := not_reaches_emits_of_pruned r hp
        rw [pickGo_cons_pruned hp, ih rest acc r hszr, hcons, iff_false_intro hnot]
        generalize (∃ x ∈ rest, ∃ s, Reaches env x s ∧ emits env s r) = B
        tauto
      · rw [Bool.not_eq_true] at hp
        have hsplit := reaches_emits_iff t r hp
        by_cases htst : tested env t = true
        · cases he : emitOpt env t with
          | some r2 =>
            rw [pickGo_cons_emit_some hp htst he,
              ih (t.children.reverse ++ rest) (acc ++ [r2]) r hszc, hchild, hcons, hsplit,
              emits_iff_of_some hp htst he]
            simp only [List.mem_append, List.mem_singleton]
            generalize (∃ c ∈ t.children, ∃ s, Reaches env c s ∧ emits env s r) = C
            generalize (∃ x ∈ rest, ∃ s, Reaches env x s ∧ emits env s r) = B
            tauto
          | none =>
            have hnone := emits_elim_of_none r he
            rw [pickGo_cons_emit_none hp htst he,
              ih (t.children.reverse ++ rest) acc r hszc, hchild, hcons, hsplit,
              iff_false_intro hnone]
            generalize (∃ c ∈ t.children, ∃ s, Reaches env c s ∧ emits env s r) = C
            generalize (∃ x ∈ rest, ∃ s, Reaches env x s ∧ emits env s r) = B
            tauto
        · rw [Bool.not_eq_true] at htst
          have hnt := emits_elim_not_tested r htst
          rw [pickGo_cons_not_tested hp htst,
            ih (t.children.reverse ++ rest) acc r hszc, hchild, hcons, hsplit,
            iff_false_intro hnt]
          generalize (∃ c ∈ t.children, ∃ s, Reaches env c s ∧ emits env s r) = C
          generalize (∃ x ∈ rest, ∃ s, Reaches env x s ∧ emits env s r) = B
          tauto

theorem mem_allSubtreesF {cs : List SceneTree} {s : SceneTree} :
    s ∈ allSubtreesF cs ↔ ∃ c ∈ cs, s ∈ allSubtrees c := by
  induction cs with
  | nil => simp [allSubtreesF]
  | cons t ts ih =>
    rw [allSubtreesF]
    constructor
    · intro h
      rcases List.mem_append.mp h with h2 | h2
      · exact ⟨t, List.mem_cons_self t ts, h2⟩
      · rcases ih.mp h2 with ⟨c, hc, hs⟩
        exact ⟨c, List.mem_cons_of_mem t hc, hs⟩
    · rintro ⟨c, hc, hs⟩
      rcases List.mem_cons.mp hc with rfl | hc2
      · exact List.mem_append.mpr (Or.inl hs)
      · exact List.mem_append.mpr (Or.inr (ih.mpr ⟨c, hc2, hs⟩))

theorem self_mem_allSubtrees (t : SceneTree) : t ∈ allSubtrees t := by
  cases t with
  | mk h d cs =>
    rw [allSubtrees]
    exact List.mem_cons_self _ _

theorem reaches_mem_allSubtrees {env : PickEnv} {t s : SceneTree}
    (h : Reaches env t s) : s ∈ allSubtrees t := by
  induction h with
  | refl t => exact self_mem_allSubtrees t
  | step hp hc hr ih =>
    rename_i t c s2
    cases t with
    | mk hh d cs =>
      rw [allSubtrees]
      refine List.mem_cons_of_mem _ (mem_allSubtreesF.mpr ⟨c, ?_, ih⟩)
      simpa [SceneTree.children] using hc

theorem mem_allSubtrees_trans :
    ∀ (n : Nat) (t : SceneTree), sizeTree t ≤ n →
      ∀ {u s : SceneTree}, u ∈ allSubtrees t → s ∈ allSubtrees u → s ∈ allSubtrees t := by
  intro n
  induction n with
  | zero =>
    intro t hn
    exact absurd hn (by have := sizeTree_pos t; omega)
  | succ n ih =>
    intro t hn u s hu hs
    cases t with
    | mk h d cs =>
      rw [allSubtrees] at hu ⊢
      rcases List.mem_cons.mp hu with rfl | hu2
      · rw [allSubtrees] at hs
        exact hs
      · rcases mem_allSubtreesF.mp hu2 with ⟨c, hc, hu3⟩
        have hsz : sizeTree c ≤ n := by
          have h1 := sizeTree_le_of_mem hc
          rw [sizeTree] at hn
          omega
        exact List.mem_cons_of_mem _ (mem_allSubtreesF.mpr ⟨c, hc, ih c hsz hu3 hs⟩)

theorem findSubtreeF_eq_some {cs : List SceneTree} {h : Handle} {s : SceneTree}
    (hf : findSubtreeF cs h = some s) : ∃ c ∈ cs, findSubtree c h = some s := by
  induction cs with
  | nil => cases hf
  | cons t ts ih =>
    rw [findSubtreeF] at hf
    cases hft : findSubtree t h with
    | some s2 =>
      rw [hft] at hf
      exact ⟨t, List.mem_cons_self t ts, hft.trans hf⟩
    | none =>
      rw [hft] at hf
      rcases ih hf with ⟨c, hc, h2⟩
      exact ⟨c, List.mem_cons_of_mem t hc, h2⟩

theorem findSubtree_mem_allSubtrees :
    ∀ (n : Nat) (t : SceneTree), sizeTree t ≤ n →
      ∀ {h : Handle} {s : SceneTree}, findSubtree t h = some s → s ∈ allSubtrees t := by
  intro n
  induction n with
  | zero =>
    intro t hn
    exact absurd hn (by have := sizeTree_pos t; omega)
  | succ n ih =>
    intro t hn h s hf
    cases t with
    | mk hh d cs =>
      rw [findSubtree] at hf
      by_cases heq : hh = h
      · rw [if_pos heq] at hf
        rw [← Option.some_inj.mp hf]
        exact self_mem_allSubtrees _
      · rw [if_neg heq] at hf
        rcases findSubtreeF_eq_some hf with ⟨c, hc, h2⟩
        have hsz : sizeTree c ≤ n := by
          have h1 := sizeTree_le_of_mem hc
          rw [sizeTree] at hn
          omega
        rw [allSubtrees]
        exact List.mem_cons_of_mem _ (mem_allSubtreesF.mpr ⟨c, hc, ih c hsz h2⟩)

/-- Every node a pick result can come from is a subtree of the graph,
whichever traversal mode selected the start stack. -/
theorem startStack_reach_subtree {graph : SceneTree} {root : Handle} {eo : Bool}
    {stack0 : List SceneTree} {env : PickEnv} {t s : SceneTree}
    (hs : startStack graph root eo = some stack0) (ht : t ∈ stack0)
    (hr : Reaches env t s) : s ∈ allSubtrees graph := by
  rw [startStack] at hs
  cases eo with
  | false =>
    rw [if_neg (by simp)] at hs
    have hstack : stack0 = [graph] := (Option.some_inj.mp hs).symm
    subst hstack
    rcases List.mem_singleton.mp ht with rfl
    exact reaches_mem_allSubtrees hr
  | true =>
    rw [if_pos rfl] at hs
    cases hft : findSubtree graph root with
    | none => rw [hft] at hs; cases hs
    | some t0 =>
      rw [hft] at hs
      have hstack : stack0 = [t0] := by
        simpa using (Option.some_inj.mp hs).symm
      subst hstack
      rcases List.mem_singleton.mp ht with rfl
      exact mem_allSubtrees_trans (sizeTree graph) graph le_rfl
        (findSubtree_mem_allSubtrees (sizeTree graph) graph le_rfl hft)
        (reaches_mem_allSubtrees hr)

/-- A node only ever contributes a result carrying its own handle. -/
theorem emitOpt_node {env : PickEnv} {t : SceneTree} {r : CameraPickResult}
    (h : emitOpt env t = some r) : r.node = t.handle := by
  rw [emitOpt] at h
  by_cases hg : t.handle = env.groot
  · rw [if_pos hg] at h
    cases h
  · rw [if_neg hg] at h
    simp only at h
    split at h
    · cases h
    · have h2 := Option.some_inj.mp h
      rw [← h2]

/-! ## Lemmas about the cycling logic -/

theorem qbeq_refl (a : Q) : Q.beq a a = true := by
  simp [Q.beq]

theorem vec2_beq_refl (v : Vec2) : Vec2.beq v v = true := by
  simp [Vec2.beq, qbeq_refl]

theorem nextPickIndex_lt {len : Nat} (ctx : PickContext) (h : Nat) (cur : Vec2)
    (hlen : 0 < len) : nextPickIndex len ctx h cur < len := by
  rw [nextPickIndex]
  split
  · split
    · exact hlen
    · omega
  · exact hlen

theorem nextPickIndex_fresh {len : Nat} {ctx : PickContext} {h : Nat} {cur : Vec2}
    (hfresh : ¬(h = ctx.old_selection_hash ∧ Vec2.beq cur ctx.old_cursor_pos = true)) :
    nextPickIndex len ctx h cur = 0 := by
  rw [nextPickIndex, if_neg hfresh]

theorem wrap_mod (j len : Nat) (hlen : 0 < len) :
    (if j % len + 1 ≥ len then 0 else j % len + 1) = (j + 1) % len := by
  have hjm : j % len < len := Nat.mod_lt j hlen
  by_cases hcase : j % len + 1 ≥ len
  · rw [if_pos hcase]
    have hl : j % len + 1 = len := by omega
    by_cases h1 : len = 1
    · subst h1
      omega
    · rw [Nat.add_mod, Nat.mod_eq_of_lt (show 1 < len by omega), hl, Nat.mod_self]
  · rw [if_neg hcase]
    have h2 : 1 < len := by omega
    rw [Nat.add_mod, Nat.mod_eq_of_lt h2,
      Nat.mod_eq_of_lt (show j % len + 1 < len by omega)]

theorem ctxOf_setCtx (c : CameraController) (eo : Bool) (ctx : PickContext) :
    ctxOf (setCtx c eo ctx) eo = ctx := by
  cases eo <;> simp [ctxOf, setCtx]

theorem setCtx_camera (c : CameraController) (eo : Bool) (ctx : PickContext) :
    (setCtx c eo ctx).camera = c.camera := by
  cases eo <;> simp [setCtx]

/-- Unfolding of `pick` under the valid-camera hypotheses. -/
theorem pick_eq {c : CameraController} {cursor_pos : Vec2} {graph : SceneTree}
    {root : Handle} {screen_size : Vec2} {eo : Bool} {filter : Handle → NodeData → Bool}
    {nd : NodeData} {cam : Vec2 → Vec2 → Ray} {stack0 : List SceneTree}
    (h1 : findNode graph c.camera = some nd)
    (h2 : nd.kind = NodeKind.camera cam)
    (h3 : startStack graph root eo = some stack0) :
    pick c cursor_pos graph root screen_size eo filter =
      PickOutcome.ok
        (cyclePick (computePickList ⟨graph.handle, root, eo, filter, cam cursor_pos screen_size⟩
            stack0) cursor_pos (ctxOf c eo)).1
        (setCtx c eo
          (cyclePick (computePickList ⟨graph.handle, root, eo, filter, cam cursor_pos screen_size⟩
              stack0) cursor_pos (ctxOf c eo)).2) := by
  simp only [pick, h1, h2, h3]

theorem cyclePick_snd (L : List CameraPickResult) (cursor_pos : Vec2) (ctx : PickContext) :
    (cyclePick L cursor_pos ctx).2 =
      ⟨L, nextPickIndex L.length ctx (selectionHash (L.map CameraPickResult.node)) cursor_pos,
        selectionHash (L.map CameraPickResult.node), cursor_pos⟩ := rfl

theorem cyclePick_fst (L : List CameraPickResult) (cursor_pos : Vec2) (ctx : PickContext) :
    (cyclePick L cursor_pos ctx).1 =
      (if L.isEmpty then none
       else L[nextPickIndex L.length ctx (selectionHash (L.map CameraPickResult.node))
         cursor_pos]?) := rfl

theorem resultOf_ok (r : Option CameraPickResult) (c : CameraController) :
    (PickOutcome.ok r c).resultOf = r := rfl

theorem nextPickIndex_wrap {len hsh : Nat} {cur : Vec2} {Lst : List CameraPickResult}
    {j : Nat} (hlen : 0 < len) :
    nextPickIndex len ⟨Lst, j % len, hsh, cur⟩ hsh cur = (j + 1) % len := by
  have hc : hsh = (PickContext.mk Lst (j % len) hsh cur).old_selection_hash ∧
      Vec2.beq cur (PickContext.mk Lst (j % len) hsh cur).old_cursor_pos = true :=
    ⟨rfl, vec2_beq_refl cur⟩
  rw [nextPickIndex, if_pos hc]
  exact wrap_mod j len hlen

theorem pickN_succ (c : CameraController) (cursor_pos : Vec2) (graph : SceneTree)
    (root : Handle) (screen_size : Vec2) (eo : Bool) (filter : Handle → NodeData → Bool)
    (k : Nat) :
    pickN c cursor_pos graph root screen_size eo filter (k + 1) =
      (match pick (pickN c cursor_pos graph root screen_size eo filter k)
          cursor_pos graph root screen_size eo filter with
       | .ok _ c2 => c2
       | .panic => pickN c cursor_pos graph root screen_size eo filter k) := rfl

theorem pickN_zero (c : CameraController) (cursor_pos : Vec2) (graph : SceneTree)
    (root : Handle) (screen_size : Vec2) (eo : Bool) (filter : Handle → NodeData → Bool) :
    pickN c cursor_pos graph root screen_size eo filter 0 = c := rfl

/-- State invariant of repeated identical `pick` calls: after the
`(j+1)`-th call the active context holds the (unchanged) sorted list,
index `j mod N`, the list's hash and the cursor, and the camera handle
is untouched. -/
theorem pickN_inv
    {c : CameraController} {cursor_pos : Vec2} {graph : SceneTree} {root : Handle}
    {screen_size : Vec2} {eo : Bool} {filter : Handle → NodeData → Bool}
    {nd : NodeData} {cam : Vec2 → Vec2 → Ray} {stack0 : List SceneTree}
    {env : PickEnv} {L : List CameraPickResult}
    (h1 : findNode graph c.camera = some nd)
    (h2 : nd.kind = NodeKind.camera cam)
    (h3 : startStack graph root eo = some stack0)
    (henv : env = ⟨graph.handle, root, eo, filter, cam cursor_pos screen_size⟩)
    (hL : L = computePickList env stack0)
    (hlen : 0 < L.length)
    (hfresh : ¬(selectionHash (L.map CameraPickResult.node) = (ctxOf c eo).old_selection_hash ∧
      Vec2.beq cursor_pos (ctxOf c eo).old_cursor_pos = true)) :
    ∀ j : Nat,
      (pickN c cursor_pos graph root screen_size eo filter (j + 1)).camera = c.camera ∧
      ctxOf (pickN c cursor_pos graph root screen_size eo filter (j + 1)) eo =
        ⟨L, j % L.length, selectionHash (L.map CameraPickResult.node), cursor_pos⟩ := by
  subst henv
  subst hL
  intro j
  induction j with
  | zero =>
    rw [pickN_succ, pickN_zero, pick_eq h1 h2 h3]
    constructor
    · exact setCtx_camera ..
    · rw [ctxOf_setCtx, cyclePick_snd, nextPickIndex_fresh hfresh, Nat.zero_mod]
  | succ j ih =>
    obtain ⟨ihcam, ihctx⟩ := ih
    have h1b : findNode graph
        (pickN c cursor_pos graph root screen_size eo filter (j + 1)).camera = some nd := by
      rw [ihcam]
      exact h1
    rw [pickN_succ, pick_eq h1b h2 h3]
    constructor
    · rw [setCtx_camera, ihcam]
    · rw [ctxOf_setCtx, cyclePick_snd, ihctx, nextPickIndex_wrap hlen]

/-- The value of the `(j+1)`-th identical `pick` call: entry `j mod N`
of the sorted result list. -/
theorem resOfCall_eq
    {c : CameraController} {cursor_pos : Vec2} {graph : SceneTree} {root : Handle}
    {screen_size : Vec2} {eo : Bool} {filter : Handle → NodeData → Bool}
    {nd : NodeData} {cam : Vec2 → Vec2 → Ray} {stack0 : List SceneTree}
    {env : PickEnv} {L : List CameraPickResult}
    (h1 : findNode graph c.camera = some nd)
    (h2 : nd.kind = NodeKind.camera cam)
    (h3 : startStack graph root eo = some stack0)
    (henv : env = ⟨graph.handle, root, eo, filter, cam cursor_pos screen_size⟩)
    (hL : L = computePickList env stack0)
    (hlen : 0 < L.length)
    (hfresh : ¬(selectionHash (L.map CameraPickResult.node) = (ctxOf c eo).old_selection_hash ∧
      Vec2.beq cursor_pos (ctxOf c eo).old_cursor_pos = true)) :
    ∀ j : Nat, resOfCall c cursor_pos graph root screen_size eo filter j =
      L[j % L.length]? := by
  have hne : L.isEmpty = false := by
    cases L with
    | nil => simp at hlen
    | cons a as => rfl
  intro j
  cases j with
  | zero =>
    rw [resOfCall, pickN_zero, pick_eq h1 h2 h3, resultOf_ok, cyclePick_fst]
    subst henv
    subst hL
    rw [hne]
    simp only [Bool.false_eq_true, if_false]
    rw [nextPickIndex_fresh hfresh, Nat.zero_mod]
  | succ j =>
    obtain ⟨ihcam, ihctx⟩ := pickN_inv h1 h2 h3 henv hL hlen hfresh j
    have h1b : findNode graph
        (pickN c cursor_pos graph root screen_size eo filter (j + 1)).camera = some nd := by
      rw [ihcam]
      exact h1
    rw [resOfCall, pick_eq h1b h2 h3, resultOf_ok, cyclePick_fst]
    subst henv
    subst hL
    rw [hne]
    simp only [Bool.false_eq_true, if_false]
    rw [ihctx, nextPickIndex_wrap hlen]

theorem mem_of_getElem_opt : ∀ {α : Type} {l : List α} {i : Nat} {a : α},
    l[i]? = some a → a ∈ l := by
  intro α l
  induction l with
  | nil => intro i a h; simp at h
  | cons x xs ih =>
    intro i a h
    cases i with
    | zero =>
      simp at h
      exact h ▸ List.mem_cons_self x xs
    | succ j =>
      simp at h
      exact List.mem_cons_of_mem x (ih h)

theorem getElem_opt_zero {α : Type} (l : List α) : l[0]? = l.head? := by
  cases l <;> simp

/-! ## Lemmas for the degenerate-transform fallback -/

theorem Q.isZero_zero_mul (x : Q) : Q.isZero (Q.zero * x) = true := by
  show Q.isZero (Q.mul Q.zero x) = true
  simp [Q.isZero, Q.mul, Q.zero]

theorem Q.isZero_add {a b : Q} (ha : Q.isZero a = true) (hb : Q.isZero b = true) :
    Q.isZero (a + b) = true := by
  show Q.isZero (Q.add a b) = true
  simp only [Q.isZero, decide_eq_true_eq] at ha hb ⊢
  simp [Q.add, ha, hb]

theorem qzero_lin (v : Vec3) :
    Q.isZero (Q.zero * v.x + Q.zero * v.y + Q.zero * v.z) = true :=
  Q.isZero_add (Q.isZero_add (Q.isZero_zero_mul v.x) (Q.isZero_zero_mul v.y))
    (Q.isZero_zero_mul v.z)

theorem qzero_aff (v : Vec3) :
    Q.isZero (Q.zero * v.x + Q.zero * v.y + Q.zero * v.z + Q.zero) = true :=
  Q.isZero_add (qzero_lin v) (by simp [Q.isZero, Q.zero])

/-- Transforming any ray by the zero matrix collapses it to a ray whose
origin and direction are (value-wise) zero. -/
theorem ray_transform_zero (r : Ray) :
    Vec3.isZero (r.transform Mat4.zero).origin = true ∧
    Vec3.isZero (r.transform Mat4.zero).dir = true := by
  constructor
  · show Vec3.isZero (Mat4.transformPoint Mat4.zero r.origin) = true
    rw [Mat4.transformPoint]
    simp only [Mat4.zero]
    rw [if_pos (qzero_aff r.origin)]
    simp [Vec3.isZero, qzero_aff]
  · show Vec3.isZero (Mat4.transformVector Mat4.zero r.dir) = true
    rw [Mat4.transformVector]
    simp only [Mat4.zero]
    simp [Vec3.isZero, qzero_lin]

/-! ## Lemmas for the key handlers -/

/-- One event's effect on a movement flag: set or cleared when the
event's key drives the direction, untouched otherwise. -/
theorem dirFlag_step (c : CameraController) (e : KeyEvent) (d : Dir) :
    dirFlag (applyEvent c e) d =
      (if e.key ∈ dirKeys d then
        (match e with
         | KeyEvent.down _ => true
         | KeyEvent.up _ => false)
       else dirFlag c d) := by
  cases d <;> rcases e with k | k <;> cases k <;>
    simp [applyEvent, on_key_down, on_key_up, dirFlag, dirKeys, KeyEvent.key]

/-- The flag of a direction after a sequence of events is decided by
the most recent event on that direction's keys (unchanged when there is
none). -/
theorem dirFlag_applyEvents (evs : List KeyEvent) :
    ∀ (c : CameraController) (d : Dir),
      dirFlag (applyEvents c evs) d =
        (match lastMatching (dirKeys d) evs with
         | some (KeyEvent.down _) => true
         | some (KeyEvent.up _) => false
         | none => dirFlag c d) := by
  induction evs with
  | nil =>
    intro c d
    rfl
  | cons e evs ih =>
    intro c d
    show dirFlag (applyEvents (applyEvent c e) evs) d = _
    rw [ih (applyEvent c e) d, lastMatching]
    cases hlm : lastMatching (dirKeys d) evs with
    | some x =>
      rcases x with k | k <;> rfl
    | none =>
      rw [dirFlag_step]
      by_cases hmem : e.key ∈ dirKeys d
      · rw [if_pos hmem, if_pos hmem]
        rcases e with k | k <;> rfl
      · rw [if_neg hmem, if_neg hmem]

/-- The physical state of a key after a sequence of events is decided
by the most recent event on that key (still as initialised when there
is none). -/
theorem heldStep_fold_eq (evs : List KeyEvent) :
    ∀ (hm : KeyCode → Bool) (k : KeyCode),
      (evs.foldl heldStep hm) k =
        (match lastMatching [k] evs with
         | some (KeyEvent.down _) => true
         | some (KeyEvent.up _) => false
         | none => hm k) := by
  induction evs with
  | nil =>
    intro hm k
    rfl
  | cons e evs ih =>
    intro hm k
    show (evs.foldl heldStep (heldStep hm e)) k = _
    rw [ih (heldStep hm e) k, lastMatching]
    cases hlm : lastMatching [k] evs with
    | some x =>
      rcases x with k2 | k2 <;> rfl
    | none =>
      by_cases hmem : e.key ∈ [k]
      · rw [if_pos hmem]
        rw [List.mem_singleton] at hmem
        rcases e with k2 | k2 <;>
          (simp only [KeyEvent.key] at hmem
           subst hmem
           simp [heldStep])
      · rw [if_neg hmem]
        rw [List.mem_singleton] at hmem
        rcases e with k2 | k2 <;>
          (simp only [KeyEvent.key] at hmem
           simp only [heldStep]
           rw [if_neg (fun h => hmem h.symm)])

theorem heldAfter_eq (evs : List KeyEvent) (k : KeyCode) :
    heldAfter evs k =
      (match lastMatching [k] evs with
       | some (KeyEvent.down _) => true
       | some (KeyEvent.up _) => false
       | none => false) := by
  rw [heldAfter, heldStep_fold_eq]

/-- A sequence with no event on any of the keys has no last matching
event. -/
theorem lastMatching_none {keys : List KeyCode} :
    ∀ {evs : List KeyEvent}, (∀ e ∈ evs, e.key ∉ keys) →
      lastMatching keys evs = none := by
  intro evs
  induction evs with
  | nil => intro _; rfl
  | cons e evs ih =>
    intro h
    rw [lastMatching, ih (fun x hx => h x (List.mem_cons_of_mem e hx))]
    rw [if_neg (h e (List.mem_cons_self e evs))]

theorem lastMatching_pair_left :
    ∀ {evs : List KeyEvent}, (∀ e ∈ evs, e.key ≠ KeyCode.Q) →
      lastMatching [KeyCode.Space, KeyCode.Q] evs = lastMatching [KeyCode.Space] evs := by
  intro evs
  induction evs with
  | nil => intro _; rfl
  | cons e evs ih =>
    intro h
    rw [lastMatching, lastMatching, ih (fun x hx => h x (List.mem_cons_of_mem e hx))]
    cases hlm : lastMatching [KeyCode.Space] evs with
    | some x => rfl
    | none =>
      have hq := h e (List.mem_cons_self e evs)
      by_cases hsp : e.key = KeyCode.Space
      · rw [if_pos (by simp [hsp]), if_pos (by simp [hsp])]
      · rw [if_neg (by simp [hsp, hq]), if_neg (by simp [hsp])]

theorem lastMatching_pair_right :
    ∀ {evs : List KeyEvent}, (∀ e ∈ evs, e.key ≠ KeyCode.Space) →
      lastMatching [KeyCode.Space, KeyCode.Q] evs = lastMatching [KeyCode.Q] evs := by
  intro evs
  induction evs with
  | nil => intro _; rfl
  | cons e evs ih =>
    intro h
    rw [lastMatching, lastMatching, ih (fun x hx => h x (List.mem_cons_of_mem e hx))]
    cases hlm : lastMatching [KeyCode.Q] evs with
    | some x => rfl
    | none =>
      have hsp := h e (List.mem_cons_self e evs)
      by_cases hq : e.key = KeyCode.Q
      · rw [if_pos (by simp [hq]), if_pos (by simp [hq])]
      · rw [if_neg (by simp [hsp, hq]), if_neg (by simp [hq])]

theorem ctxAfter_ok (eo : Bool) (c : CameraController) (r : Option CameraPickResult)
    (c2 : CameraController) : ctxAfter eo c (PickOutcome.ok r c2) = ctxOf c2 eo := rfl

/-! ## The claims -/

/-- C10: equality of physics selections is permutation-invariant set
equality — for all `RigidBodySelection` values `a` and `b` (and
likewise all `JointSelection` values), `a == b` holds exactly when
`b`'s handle list is a permutation of `a`'s, so reordering the handles
in a selection never changes which selections it is equal to. -/
theorem C10_selection_eq_is_permutation :
    ∀ (a b : RigidBodySelection) (c d : JointSelection),
      (RigidBodySelection.eq a b = true ↔ a.bodies.Perm b.bodies) ∧
      (JointSelection.eq c d = true ↔ c.joints.Perm d.joints) := by
  intro a b c d
  constructor
  · rw [RigidBodySelection.eq, is_slice_equal_permutation]
    exact List.isPerm_iff
  · rw [JointSelection.eq, is_slice_equal_permutation]
    exact List.isPerm_iff

/-- C8 counterexample: after `down Space, down Q, up Space` the `Q` key
is still held (so the `up` direction has a key currently down), but
`move_up` is false — the flag set does not equal the set of directions
whose keys are held, because `Space` and `Q` share one flag. -/
theorem C8_counterexample :
    dirFlag (applyEvents ctrl0 evsMix) Dir.up = false ∧ dirHeld evsMix Dir.up = true := by
  decide

/-- C8 (amended): starting from a controller with all movement flags
clear, for every finite sequence of movement-key down/up events in
which each direction is driven by a single key (no mixing of the two
`up` keys: the sequence avoids `Q`, or avoids `Space`), the set of
active movement-direction flags afterwards equals exactly the set of
directions whose keys are currently held down (repeated down or up of
the same key is idempotent, the handlers being state assignments).  In
general — mixed sequences included — `move_up` equals the state set by
the most recent `Space`/`Q` event. -/
theorem C8_amended_flags_match_held (evs : List KeyEvent) (c : CameraController)
    (hflags : dirFlag c Dir.forward = false ∧ dirFlag c Dir.backward = false ∧
      dirFlag c Dir.left = false ∧ dirFlag c Dir.right = false ∧
      dirFlag c Dir.up = false ∧ dirFlag c Dir.down = false) :
    (((∀ e ∈ evs, e.key ≠ KeyCode.Q) ∨ (∀ e ∈ evs, e.key ≠ KeyCode.Space)) →
      ∀ d : Dir, dirFlag (applyEvents c evs) d = dirHeld evs d) ∧
    (applyEvents c evs).move_up =
      (match lastMatching [KeyCode.Space, KeyCode.Q] evs with
       | some (KeyEvent.down _) => true
       | some (KeyEvent.up _) => false
       | none => c.move_up) := by
  obtain ⟨hf, hb, hl, hr, hu, hd⟩ := hflags
  have single : ∀ (d : Dir) (k : KeyCode), dirKeys d = [k] → dirFlag c d = false →
      dirFlag (applyEvents c evs) d = dirHeld evs d := by
    intro d k hk hcd
    rw [dirFlag_applyEvents evs c d, hcd, hk]
    simp only [dirHeld, hk, List.any_cons, List.any_nil, Bool.or_false]
    rw [heldAfter_eq]
  constructor
  · intro hmix d
    cases d with
    | forward => exact single Dir.forward KeyCode.W rfl hf
    | backward => exact single Dir.backward KeyCode.S rfl hb
    | left => exact single Dir.left KeyCode.A rfl hl
    | right => exact single Dir.right KeyCode.D rfl hr
    | down => exact single Dir.down KeyCode.E rfl hd
    | up =>
      rw [dirFlag_applyEvents evs c Dir.up, hu]
      simp only [dirHeld, dirKeys, List.any_cons, List.any_nil, Bool.or_false]
      rw [heldAfter_eq, heldAfter_eq]
      rcases hmix with hq | hs
      · rw [lastMatching_pair_left hq,
          @lastMatching_none [KeyCode.Q] evs (fun e he => by
            simp only [List.mem_singleton]
            exact hq e he)]
        cases hlm : lastMatching [KeyCode.Space] evs with
        | some x => rcases x with k | k <;> rfl
        | none => rfl
      · rw [lastMatching_pair_right hs,
          @lastMatching_none [KeyCode.Space] evs (fun e he => by
            simp only [List.mem_singleton]
            exact hs e he)]
        cases hlm : lastMatching [KeyCode.Q] evs with
        | some x => rcases x with k | k <;> rfl
        | none => rfl
  · exact dirFlag_applyEvents evs c Dir.up

/-- C8 witness: the flags/held-keys equality on a concrete `Q`-free
sequence (at the `up` direction), and the most-recent-event value of
`move_up` on the concrete mixed `Space`/`Q` sequence. -/
theorem C8_amended_witness :
    dirFlag (applyEvents ctrl0 evsOne) Dir.up = dirHeld evsOne Dir.up ∧
    (applyEvents ctrl0 evsMix).move_up =
      (match lastMatching [KeyCode.Space, KeyCode.Q] evsMix with
       | some (KeyEvent.down _) => true
       | some (KeyEvent.up _) => false
       | none => ctrl0.move_up) := by
  constructor
  · exact (C8_amended_flags_match_held evsOne ctrl0 (by decide)).1
      (Or.inl (by decide)) Dir.up
  · exact (C8_amended_flags_match_held evsMix ctrl0 (by decide)).2

/-- C7 counterexample: with the controller's camera handle resolving to
the (base, non-camera) editor root, `pick` does not panic — it returns
the no-hit value `None` — while `pick_on_plane` does panic. -/
theorem C7_counterexample :
    (pick ctrlBad cursor1 G1 farH screen1 false trueFilter).isPanic = false ∧
    (pick ctrlBad cursor1 G1 farH screen1 false trueFilter).resultOf.isNone = true ∧
    (pick_on_plane ctrlBad planeXY G1 cursor1 screen1 Mat4.identity).isPanic = true := by
  decide

/-- C7 (amended): if the camera handle resolves to a node that is not a
camera variant, `pick_on_plane` fails loudly (the `unreachable!()`
arm), but `pick` silently degrades: its `if let Node::Camera` body is
skipped and it returns `None` with the controller unchanged. -/
theorem C7_amended_plane_panics_pick_does_not
    {c : CameraController} {cursor_pos : Vec2} {graph : SceneTree} {root : Handle}
    {screen_size : Vec2} {eo : Bool} {filter : Handle → NodeData → Bool}
    {plane : Plane} {mouse_position viewport_size : Vec2} {transform : Mat4}
    {nd : NodeData}
    (h1 : findNode graph c.camera = some nd)
    (h2 : ∀ mk : Vec2 → Vec2 → Ray, nd.kind ≠ NodeKind.camera mk) :
    pick c cursor_pos graph root screen_size eo filter = PickOutcome.ok none c ∧
    pick_on_plane c plane graph mouse_position viewport_size transform =
      PlaneOutcome.panic := by
  constructor
  · simp only [pick, h1]
  · simp only [pick_on_plane, h1]

/-- C7 witness: the amended behaviour at a concrete graph whose camera
handle names a base node. -/
theorem C7_amended_witness :
    pick ctrlBad cursor1 G2 farH screen1 false trueFilter = PickOutcome.ok none ctrlBad ∧
    pick_on_plane ctrlBad planeXY G2 cursor1 screen1 Mat4.identity = PlaneOutcome.panic :=
  C7_amended_plane_panics_pick_does_not
    (show findNode G2 ctrlBad.camera = some ⟨false, Mat4.identity, .base⟩ from rfl)
    (fun _ h => nomatch h)

/-- C2 counterexample: a node with a non-invertible global transform —
the inverse fails, and the object-space ray used for the intersection
test is not the untransformed camera ray (not even value-wise). -/
theorem C2_counterexample :
    (Mat4.tryInverse singularData.transform).isNone = true ∧
    Ray.beq (objectSpaceRay ray0 singularData) ray0 = false := by
  decide

/-- C2 (amended): for a visited node whose global transform is not
invertible, the ray is transformed by `Matrix4::default()` — the zero
matrix, not the identity — so the ray used for the bounding-box test is
the degenerate ray with zero origin and zero direction (still a defined
fallback: the call does not fail or propagate an error). -/
theorem C2_amended_zero_matrix_fallback {ray : Ray} {d : NodeData}
    (h : (Mat4.tryInverse d.transform).isNone = true) :
    objectSpaceRay ray d = ray.transform Mat4.zero ∧
    Vec3.isZero (objectSpaceRay ray d).origin = true ∧
    Vec3.isZero (objectSpaceRay ray d).dir = true := by
  have h2 : Mat4.tryInverse d.transform = none := Option.isNone_iff_eq_none.mp h
  have he : objectSpaceRay ray d = ray.transform Mat4.zero := by
    rw [objectSpaceRay, h2]
    rfl
  exact ⟨he, he ▸ (ray_transform_zero ray).1, he ▸ (ray_transform_zero ray).2⟩

/-- C2 witness: the amended fallback at the concrete singular
transform. -/
theorem C2_amended_witness :
    objectSpaceRay ray0 singularData = ray0.transform Mat4.zero ∧
    Vec3.isZero (objectSpaceRay ray0 singularData).origin = true ∧
    Vec3.isZero (objectSpaceRay ray0 singularData).dir = true :=
  C2_amended_zero_matrix_fallback (by decide)

/-- C3 counterexample: two executions of `pick` (distances of the two
meshes swapped between the graphs) whose pick lists carry the same two
node handles as a multiset, in opposite sorted orders — and the
computed selection hashes differ, because the hash feeds the node
identities sequentially in toi-sorted order into `DefaultHasher`. -/
theorem C3_counterexample :
    ((ctxAfter false ctrl0 (pick ctrl0 cursor1 G1 farH screen1 false trueFilter)).pick_list.map
      CameraPickResult.node) = [m2H, m1H] ∧
    ((ctxAfter false ctrl0 (pick ctrl0 cursor1 G2 farH screen1 false trueFilter)).pick_list.map
      CameraPickResult.node) = [m1H, m2H] ∧
    List.Perm [m2H, m1H] [m1H, m2H] ∧
    (ctxAfter false ctrl0
        (pick ctrl0 cursor1 G1 farH screen1 false trueFilter)).old_selection_hash ≠
      (ctxAfter false ctrl0
        (pick ctrl0 cursor1 G2 farH screen1 false trueFilter)).old_selection_hash := by
  refine ⟨by decide, by decide, by decide, by decide⟩

/-- C3 (amended): the selection hash `pick` stores is the sequential
SipHash of the node identities in toi-sorted order, so it is equal
across executions whose sorted node-identity sequences are equal — but
it is order-dependent, not order-independent, over the multiset of
node handles. -/
theorem C3_amended_hash_is_sequential
    {c : CameraController} {cursor_pos : Vec2} {graph : SceneTree} {root : Handle}
    {screen_size : Vec2} {eo : Bool} {filter : Handle → NodeData → Bool}
    {nd : NodeData} {cam : Vec2 → Vec2 → Ray} {stack0 : List SceneTree}
    (h1 : findNode graph c.camera = some nd)
    (h2 : nd.kind = NodeKind.camera cam)
    (h3 : startStack graph root eo = some stack0) :
    (ctxAfter eo c (pick c cursor_pos graph root screen_size eo filter)).old_selection_hash =
      selectionHash
        ((ctxAfter eo c (pick c cursor_pos graph root screen_size eo
          filter)).pick_list.map CameraPickResult.node) := by
  rw [pick_eq h1 h2 h3, ctxAfter_ok, ctxOf_setCtx, cyclePick_snd]

/-- C3 witness: the amended hash relation on a concrete execution. -/
theorem C3_amended_witness :
    (ctxAfter false ctrl0
        (pick ctrl0 cursor1 G1 farH screen1 false trueFilter)).old_selection_hash =
      selectionHash
        ((ctxAfter false ctrl0 (pick ctrl0 cursor1 G1 farH screen1 false
          trueFilter)).pick_list.map CameraPickResult.node) :=
  C3_amended_hash_is_sequential rfl rfl rfl

/-- C4: after the traversal phase of every `pick` call the pick list is
sorted ascending by `toi`; and on a fresh call (candidate-set hash or
cursor position differing from the stored ones) the returned value is
the head of that sorted list — the nearest hit. -/
theorem C4_pick_list_sorted_by_toi
    {c : CameraController} {cursor_pos : Vec2} {graph : SceneTree} {root : Handle}
    {screen_size : Vec2} {eo : Bool} {filter : Handle → NodeData → Bool}
    {nd : NodeData} {cam : Vec2 → Vec2 → Ray} {stack0 : List SceneTree}
    (h1 : findNode graph c.camera = some nd)
    (h2 : nd.kind = NodeKind.camera cam)
    (h3 : startStack graph root eo = some stack0) :
    List.Sorted toiLe
      (ctxAfter eo c (pick c cursor_pos graph root screen_size eo filter)).pick_list ∧
    (¬(selectionHash
          ((ctxAfter eo c (pick c cursor_pos graph root screen_size eo
            filter)).pick_list.map CameraPickResult.node) =
          (ctxOf c eo).old_selection_hash ∧
        Vec2.beq cursor_pos (ctxOf c eo).old_cursor_pos = true) →
      (pick c cursor_pos graph root screen_size eo filter).resultOf =
        (ctxAfter eo c (pick c cursor_pos graph root screen_size eo
          filter)).pick_list.head?) := by
  rw [pick_eq h1 h2 h3, ctxAfter_ok, ctxOf_setCtx, cyclePick_snd]
  constructor
  · show List.Sorted toiLe (computePickList _ _)
    rw [computePickList]
    exact List.sorted_insertionSort toiLe _
  · intro hfresh
    rw [resultOf_ok, cyclePick_fst, nextPickIndex_fresh hfresh]
    show (if (computePickList _ _).isEmpty = true then none
      else (computePickList _ _)[0]?) = (computePickList _ _).head?
    generalize computePickList
      ⟨graph.handle, root, eo, filter, cam cursor_pos screen_size⟩ stack0 = L2
    cases L2 with
    | nil => rfl
    | cons a as => simp

/-- C4 witness: a fresh pick on the two-mesh graph — the list is sorted
and the returned value is its head. -/
theorem C4_witness :
    List.Sorted toiLe
      (ctxAfter false ctrl0 (pick ctrl0 cursor1 G1 farH screen1 false
        trueFilter)).pick_list ∧
    (pick ctrl0 cursor1 G1 farH screen1 false trueFilter).resultOf =
      (ctxAfter false ctrl0 (pick ctrl0 cursor1 G1 farH screen1 false
        trueFilter)).pick_list.head? := by
  constructor
  · exact (C4_pick_list_sorted_by_toi (show findNode G1 ctrl0.camera = some camData from rfl)
      (show camData.kind = NodeKind.camera camRayFn from rfl) (show startStack G1 farH false = some [G1] from rfl)).1
  · exact (C4_pick_list_sorted_by_toi (show findNode G1 ctrl0.camera = some camData from rfl)
      (show camData.kind = NodeKind.camera camRayFn from rfl) (show startStack G1 farH false = some [G1] from rfl)).2 (by decide)

/-- C5: a node all of whose occurrences in the graph are invisible or
rejected by the caller-supplied filter never appears in the resulting
pick list and is never the returned result, regardless of geometric
intersection. -/
theorem C5_invisible_or_filtered_excluded
    {c : CameraController} {cursor_pos : Vec2} {graph : SceneTree} {root : Handle}
    {screen_size : Vec2} {eo : Bool} {filter : Handle → NodeData → Bool}
    {nd : NodeData} {cam : Vec2 → Vec2 → Ray} {stack0 : List SceneTree} {hdl : Handle}
    (h1 : findNode graph c.camera = some nd)
    (h2 : nd.kind = NodeKind.camera cam)
    (h3 : startStack graph root eo = some stack0)
    (hfail : ∀ s ∈ allSubtrees graph, s.handle = hdl →
      ¬(s.data.visible = true ∧ filter s.handle s.data = true)) :
    ((ctxAfter eo c (pick c cursor_pos graph root screen_size eo filter)).pick_list.all
      (fun res => !decide (res.node = hdl))) = true ∧
    ((pick c cursor_pos graph root screen_size eo filter).resultOf.all
      (fun res => !decide (res.node = hdl))) = true := by
  have key : ∀ res ∈ computePickList
      ⟨graph.handle, root, eo, filter, cam cursor_pos screen_size⟩ stack0,
      res.node ≠ hdl := by
    intro res hres
    rw [computePickList] at hres
    have hraw := (List.mem_insertionSort toiLe).mp hres
    rw [mem_pickGo (sizeForest stack0) stack0 [] res le_rfl] at hraw
    rcases hraw with hacc | ⟨t, ht, s, hrch, hem⟩
    · cases hacc
    · have hsub : s ∈ allSubtrees graph := startStack_reach_subtree h3 ht hrch
      have hnode : res.node = s.handle := emitOpt_node hem.2.2
      intro heq
      have htst := hem.2.1
      rw [tested] at htst
      rw [Bool.and_eq_true] at htst
      exact hfail s hsub (by rw [← hnode, heq]) ⟨htst.1, htst.2⟩
  rw [pick_eq h1 h2 h3, ctxAfter_ok, ctxOf_setCtx, cyclePick_snd]
  constructor
  · show ((computePickList _ _).all _) = true
    rw [List.all_eq_true]
    intro x hx
    simp only [Bool.not_eq_true', decide_eq_false_iff_not]
    exact key x hx
  · rw [resultOf_ok, cyclePick_fst]
    generalize hL2 : computePickList
      ⟨graph.handle, root, eo, filter, cam cursor_pos screen_size⟩ stack0 = L2 at key ⊢
    by_cases hemp : L2.isEmpty = true
    · rw [if_pos hemp]
      rfl
    · rw [if_neg hemp]
      cases hget : L2[nextPickIndex L2.length (ctxOf c eo)
          (selectionHash (L2.map CameraPickResult.node)) cursor_pos]? with
      | none => rfl
      | some res =>
        have hmem := mem_of_getElem_opt hget
        show (!decide (res.node = hdl)) = true
        simp only [Bool.not_eq_true', decide_eq_false_iff_not]
        exact key res hmem

/-- C5 witness: the invisible editor-root node of the test graph sits
on the ray (a visible base node there would hit the unit box), yet it
never appears in the list or the result. -/
theorem C5_witness :
    ((ctxAfter false ctrl0 (pick ctrl0 cursor1 G1 farH screen1 false
      trueFilter)).pick_list.all (fun res => !decide (res.node = edH))) = true ∧
    ((pick ctrl0 cursor1 G1 farH screen1 false trueFilter).resultOf.all
      (fun res => !decide (res.node = edH))) = true :=
  C5_invisible_or_filtered_excluded rfl rfl rfl (by decide)

/-- C6: the pick-context invariant holds after every `pick` call —
whenever the new pick list is non-empty the stored `pick_index` is a
valid index into it, and whenever the candidate-set hash or the cursor
position differs from the previously stored ones the index is reset
to 0. -/
theorem C6_pick_index_invariant
    {c : CameraController} {cursor_pos : Vec2} {graph : SceneTree} {root : Handle}
    {screen_size : Vec2} {eo : Bool} {filter : Handle → NodeData → Bool}
    {nd : NodeData} {cam : Vec2 → Vec2 → Ray} {stack0 : List SceneTree}
    (h1 : findNode graph c.camera = some nd)
    (h2 : nd.kind = NodeKind.camera cam)
    (h3 : startStack graph root eo = some stack0) :
    ((ctxAfter eo c (pick c cursor_pos graph root screen_size eo
        filter)).pick_list.isEmpty = false →
      (ctxAfter eo c (pick c cursor_pos graph root screen_size eo filter)).pick_index <
        (ctxAfter eo c (pick c cursor_pos graph root screen_size eo
          filter)).pick_list.length) ∧
    (¬(selectionHash
          ((ctxAfter eo c (pick c cursor_pos graph root screen_size eo
            filter)).pick_list.map CameraPickResult.node) =
          (ctxOf c eo).old_selection_hash ∧
        Vec2.beq cursor_pos (ctxOf c eo).old_cursor_pos = true) →
      (ctxAfter eo c (pick c cursor_pos graph root screen_size eo
        filter)).pick_index = 0) := by
  rw [pick_eq h1 h2 h3, ctxAfter_ok, ctxOf_setCtx, cyclePick_snd]
  constructor
  · intro hne
    apply nextPickIndex_lt
    revert hne
    show (computePickList _ _).isEmpty = false → 0 < (computePickList _ _).length
    generalize computePickList
      ⟨graph.handle, root, eo, filter, cam cursor_pos screen_size⟩ stack0 = L2
    cases L2 with
    | nil => intro hne; cases hne
    | cons a as => intro _; simp
  · intro hfresh
    exact nextPickIndex_fresh hfresh

/-- C6 witness: both invariant parts instantiated on a concrete fresh
pick with a non-empty result list (index in range, and reset to 0). -/
theorem C6_witness :
    (ctxAfter false ctrl0 (pick ctrl0 cursor1 G1 farH screen1 false
      trueFilter)).pick_index <
      (ctxAfter false ctrl0 (pick ctrl0 cursor1 G1 farH screen1 false
        trueFilter)).pick_list.length ∧
    (ctxAfter false ctrl0 (pick ctrl0 cursor1 G1 farH screen1 false
      trueFilter)).pick_index = 0 := by
  constructor
  · exact (C6_pick_index_invariant (show findNode G1 ctrl0.camera = some camData from rfl)
      (show camData.kind = NodeKind.camera camRayFn from rfl) (show startStack G1 farH false = some [G1] from rfl)).1 (by decide)
  · exact (C6_pick_index_invariant (show findNode G1 ctrl0.camera = some camData from rfl)
      (show camData.kind = NodeKind.camera camRayFn from rfl) (show startStack G1 farH false = some [G1] from rfl)).2 (by decide)

/-- C9 counterexample: in a full-scene pick the designated editor root
is skipped *before* its children are pushed, pruning its entire
subtree: with `root` set to the editor root the pick list is empty,
although the same graph picked with an unrelated `root` shows that the
editor root's mesh child is hit by the ray. -/
theorem C9_counterexample :
    (ctxAfter false ctrl0
      (pick ctrl0 cursor1 G1 edH screen1 false trueFilter)).pick_list.isEmpty = true ∧
    m1H ∈ ((ctxAfter false ctrl0
      (pick ctrl0 cursor1 G1 farH screen1 false trueFilter)).pick_list.map
        CameraPickResult.node) := by
  refine ⟨by decide, by decide⟩

/-- C9 (amended): in any pick — editor-only or full-scene — skipping a
node for invisibility or filter failure does not prune its subtree:
every node reachable from a start-stack root through (possibly
invisible or filtered-out) ancestors that itself passes the gate and
intersects appears in the pick list.  By contrast, whenever a
full-scene traversal step pops a node carrying the designated editor
root's handle, the loop discards it before pushing its children, so
its entire subtree is pruned and never tested. -/
theorem C9_skipped_nodes_do_not_prune
    {c : CameraController} {cursor_pos : Vec2} {graph : SceneTree} {root : Handle}
    {screen_size : Vec2} {eo : Bool} {filter : Handle → NodeData → Bool}
    {nd : NodeData} {cam : Vec2 → Vec2 → Ray} {stack0 : List SceneTree}
    {env : PickEnv} {t0 s : SceneTree}
    (h1 : findNode graph c.camera = some nd)
    (h2 : nd.kind = NodeKind.camera cam)
    (h3 : startStack graph root eo = some stack0)
    (henv : env = ⟨graph.handle, root, eo, filter, cam cursor_pos screen_size⟩)
    (ht0 : t0 ∈ stack0)
    (hreach : Reaches env t0 s)
    (hnp : pruned env s = false)
    (htest : tested env s = true)
    (hsome : (emitOpt env s).isSome = true) :
    s.handle ∈
      ((ctxAfter eo c (pick c cursor_pos graph root screen_size eo
        filter)).pick_list.map CameraPickResult.node) ∧
    (∀ (env2 : PickEnv) (fuel : Nat) (t : SceneTree) (rest : List SceneTree)
        (acc : List CameraPickResult), env2.editor_only = false →
      t.handle = env2.root →
      pickGo env2 (fuel + 1) (t :: rest) acc = pickGo env2 fuel rest acc) := by
  constructor
  · obtain ⟨r, hr⟩ := Option.isSome_iff_exists.mp hsome
    rw [pick_eq h1 h2 h3, ctxAfter_ok, ctxOf_setCtx, cyclePick_snd]
    subst henv
    have hmem : r ∈ pickGo ⟨graph.handle, root, eo, filter, cam cursor_pos screen_size⟩
        (sizeForest stack0) stack0 [] := by
      rw [mem_pickGo (sizeForest stack0) stack0 [] r le_rfl]
      exact Or.inr ⟨t0, ht0, s, hreach, hnp, htest, hr⟩
    have hmem2 : r ∈ computePickList
        ⟨graph.handle, root, eo, filter, cam cursor_pos screen_size⟩ stack0 := by
      rw [computePickList]
      exact (List.mem_insertionSort toiLe).mpr hmem
    exact List.mem_map.mpr ⟨r, hmem2, emitOpt_node hr⟩
  · intro env2 fuel t rest acc heo hth
    exact pickGo_cons_pruned (by simp [pruned, heo, hth])

/-- C9 witness: the mesh child of the invisible editor-root node is
reached through its skipped parent and lands in the pick list; and one
full-scene loop step popping the editor root discards it — the step
equals the traversal of the remaining stack, children unpushed. -/
theorem C9_amended_witness :
    (m1H ∈ ((ctxAfter false ctrl0
      (pick ctrl0 cursor1 G1 farH screen1 false trueFilter)).pick_list.map
        CameraPickResult.node)) ∧
    pickGo ⟨G1.handle, edH, false, trueFilter, camRayFn cursor1 screen1⟩ 5
        [edTree] [] =
      pickGo ⟨G1.handle, edH, false, trueFilter, camRayFn cursor1 screen1⟩ 4 [] [] := by
  have h := C9_skipped_nodes_do_not_prune
    (show findNode G1 ctrl0.camera = some camData from rfl)
    (show camData.kind = NodeKind.camera camRayFn from rfl)
    (show startStack G1 farH false = some [G1] from rfl)
    (show (⟨G1.handle, farH, false, trueFilter, camRayFn cursor1 screen1⟩ : PickEnv) =
      ⟨G1.handle, farH, false, trueFilter, camRayFn cursor1 screen1⟩ from rfl)
    (List.mem_singleton.mpr rfl)
    (Reaches.step (by decide)
      (show edTree ∈ G1.children from List.mem_cons_self edTree [])
      (Reaches.step (by decide)
        (show meshAt m1H (-5) ∈ edTree.children from
          List.mem_cons_of_mem camNode (List.mem_cons_self (meshAt m1H (-5)) _))
        (Reaches.refl (meshAt m1H (-5)))))
    (by decide) (by decide) (by decide)
  exact ⟨h.1, h.2 ⟨G1.handle, edH, false, trueFilter, camRayFn cursor1 screen1⟩
    4 edTree [] [] rfl rfl⟩

/-- C1: starting from a state whose stored candidate-set hash or cursor
position differs from the computed ones, repeated `pick` calls with a
bit-exact identical cursor position (and hence an unchanged sorted
candidate list `L` of length `N > 0`) cycle: the `(j+1)`-th call
returns `L[j mod N]` — calls `1..N` step through the candidates in
distance order and the `(N+1)`-th call wraps back to index 0. -/
theorem C1_repeated_picks_cycle
    {c : CameraController} {cursor_pos : Vec2} {graph : SceneTree} {root : Handle}
    {screen_size : Vec2} {eo : Bool} {filter : Handle → NodeData → Bool}
    {nd : NodeData} {cam : Vec2 → Vec2 → Ray} {stack0 : List SceneTree}
    {env : PickEnv} {L : List CameraPickResult}
    (h1 : findNode graph c.camera = some nd)
    (h2 : nd.kind = NodeKind.camera cam)
    (h3 : startStack graph root eo = some stack0)
    (henv : env = ⟨graph.handle, root, eo, filter, cam cursor_pos screen_size⟩)
    (hL : L = computePickList env stack0)
    (hlen : 0 < L.length)
    (hfresh : ¬(selectionHash (L.map CameraPickResult.node) = (ctxOf c eo).old_selection_hash ∧
      Vec2.beq cursor_pos (ctxOf c eo).old_cursor_pos = true)) :
    ∀ j : Nat, resOfCall c cursor_pos graph root screen_size eo filter j =
      L[j % L.length]? :=
  resOfCall_eq h1 h2 h3 henv hL hlen hfresh

/-- C1 witness: on the two-mesh graph (N = 2) the third identical call
returns entry `2 mod 2 = 0`, wrapping back to the nearest hit. -/
theorem C1_witness :
    resOfCall ctrl0 cursor1 G1 farH screen1 false trueFilter 2 =
      (computePickList ⟨G1.handle, farH, false, trueFilter, camRayFn cursor1 screen1⟩
        [G1])[2 % (computePickList ⟨G1.handle, farH, false, trueFilter,
          camRayFn cursor1 screen1⟩ [G1]).length]? :=
  C1_repeated_picks_cycle
    (show findNode G1 ctrl0.camera = some camData from rfl)
    (show camData.kind = NodeKind.camera camRayFn from rfl)
    (show startStack G1 farH false = some [G1] from rfl)
    rfl rfl (by decide) (by decide) 2
